import Mathlib

/-!
# Verification of the mini-halite match engine core

Shallow embedding of the repository's core subsystems:

* `halite/game.py` — the dense turn resolver (`apply_player_moves_dense`,
  `compute_injuries_dense`, `resolve_combat_dense`, `rebuild_map_dense`,
  `process_next_frame`);
* `halite/docker.py` — the run-length frame codec (`encode_halite_rle`) and the
  move-reply parser of `DockerAdapter.send_frame_sync`;
* `halite/match.py` — the `ranking` function;
* `halite/map.py` — the map generator `_generate_map` and the recursive
  `_Region` factor grids.

Mutable numpy arrays are modelled as total functions from indices to `Int`
(reads outside the written region return the array's fill value, which the
Python code never observes), in-place loops as folds over the row-major index
lists, and Python exceptions as an `Except PyErr` result.  Floating point
values drawn from the PRNG are modelled as rationals, with the one
non-rational operation (`x ** 1.5`) kept as a parameter of the PRNG model.
-/

namespace Halite

/-- Python runtime exceptions observed by the embedded code.  `generationError`
is modelled from the spec: the specification's §7 names a `GenerationError` for
invalid `(W, H, P)` inputs, but no such class exists anywhere in the source. -/
inductive PyErr where
  | zeroDivisionError
  | indexError
  | valueError
  | generationError
  deriving DecidableEq, Repr

/-- A two-dimensional integer array, indexed `(y, x)`. -/
abbrev Grid := Nat → Nat → Int

/-- A three-dimensional integer array, indexed `(y, x, p)`. -/
abbrev Grid3 := Nat → Nat → Nat → Int

/-- The per-player statistics array `stats : (MAX_PLAYERS, 9)`. -/
abbrev Stats := Nat → Nat → Int

/-- Single-cell store `grid[y, x] = v`. -/
def updG (g : Grid) (y x : Nat) (v : Int) : Grid :=
  fun a b => if a = y ∧ b = x then v else g a b

/-- Single-cell store `grid[y, x, p] = v`. -/
def updG3 (g : Grid3) (y x p : Nat) (v : Int) : Grid3 :=
  fun a b c => if a = y ∧ b = x ∧ c = p then v else g a b c

/-- Single-cell store `stats[p, i] = v`. -/
def updS (s : Stats) (p i : Nat) (v : Int) : Stats :=
  fun q j => if q = p ∧ j = i then v else s q j

@[simp] theorem updG_same (g : Grid) (y x : Nat) (v : Int) : updG g y x v y x = v := by
  simp [updG]

theorem updG_other (g : Grid) (y x : Nat) (v : Int) {a b : Nat} (h : ¬(a = y ∧ b = x)) :
    updG g y x v a b = g a b := by
  simp [updG, h]

@[simp] theorem updG3_same (g : Grid3) (y x p : Nat) (v : Int) : updG3 g y x p v y x p = v := by
  simp [updG3]

theorem updG3_other (g : Grid3) (y x p : Nat) (v : Int) {a b c : Nat}
    (h : ¬(a = y ∧ b = x ∧ c = p)) : updG3 g y x p v a b c = g a b c := by
  simp [updG3, h]

@[simp] theorem updS_same (s : Stats) (p i : Nat) (v : Int) : updS s p i v p i = v := by
  simp [updS]

theorem updS_other (s : Stats) (p i : Nat) (v : Int) {q j : Nat}
    (h : ¬(q = p ∧ j = i)) : updS s p i v q j = s q j := by
  simp [updS, h]

/-! ## `halite/game.py` — constants and state -/

/-- `STILL, NORTH, EAST, SOUTH, WEST = 0, 1, 2, 3, 4`. -/
def STILL : Int := 0

/-- Stat indices, in the fixed positional layout of `game.py`. -/
def STATS_STRENGTH_LOSS_TO_MOVEMENT_CAP : Nat := 0
def STATS_STRENGTH_LOSS_TO_PRODUCTION_CAP : Nat := 1
def STATS_DAMAGE_TAKEN : Nat := 2
def STATS_OVERKILL_DAMAGE : Nat := 3
def STATS_OVERKILL_DAMAGE_TAKEN : Nat := 4
def STATS_REALIZED_PRODUCTION : Nat := 5
def STATS_TERRITORY : Nat := 6
def STATS_PRODUCTION : Nat := 7
def STATS_STRENGTH : Nat := 8

def MAX_PLAYERS : Nat := 6

/-- `DIR_TO_DELTA`, the fixed `(dy, dx)` delta table. -/
def DIR_TO_DELTA : List (Int × Int) := [(0, 0), (-1, 0), (0, 1), (1, 0), (0, -1)]

/-- Indexing the five-entry Python tuple `DIR_TO_DELTA[direction]` with an
arbitrary integer: indices `0..4` read directly, `-5..-1` wrap from the end
(Python negative indexing), anything else raises `IndexError`. -/
def tupleIndex (d : Int) : Except PyErr (Int × Int) :=
  if 0 ≤ d ∧ d < 5 then .ok (DIR_TO_DELTA.getD d.toNat (0, 0))
  else if -5 ≤ d ∧ d < 0 then .ok (DIR_TO_DELTA.getD (d + 5).toNat (0, 0))
  else .error .indexError

/-- The `GameMapTuple` view: `owner`, `production`, `strength`, all `(H, W)`. -/
structure GameMapT where
  owner : Grid
  production : Grid
  strength : Grid

/-- The row-major index list walked by the triple loops
`for y in range(H): for x in range(W): for p in range(P)`. -/
def triples (H W P : Nat) : List (Nat × Nat × Nat) :=
  (List.range H).flatMap fun y =>
    (List.range W).flatMap fun x =>
      (List.range P).map fun p => (y, x, p)

/-- Toroidal step `(y + dy) % H` on integers, as Python's nonnegative `%`. -/
def wrap (n : Nat) (y : Nat) (dy : Int) : Nat :=
  (((y : Int) + dy) % (n : Int)).toNat

/-! ### Phase 1 — `apply_player_moves_dense` -/

/-- State threaded through `apply_player_moves_dense`: the map view, the piece
grid (`-1` = absent), the origin marks, and the stats array. -/
structure MoveSt where
  gm : GameMapT
  pieces : Grid3
  moved : Grid3
  stats : Stats

/-- Loop body of the first triple loop of `apply_player_moves_dense`.  The
`DIR_TO_DELTA[direction]` lookup is resolved before the in-place writes here:
in Python an out-of-range direction raises after some writes, but the
exception aborts the whole turn, so the partially written arrays are never
observed through `process_next_frame`'s result. -/
def moveStep (H W : Nat) (moves : Grid3) (st : MoveSt) (t : Nat × Nat × Nat) :
    Except PyErr MoveSt :=
  let (y, x, p) := t
  let direction := moves y x p
  if direction = STILL then .ok st
  else
    match tupleIndex direction with
    | .error e => .error e
    | .ok (dy, dx) =>
      let moved := updG3 st.moved y x p 1
      let s := st.gm.strength y x
      let pieces := if st.pieces y x p = -1 then updG3 st.pieces y x p 0 else st.pieces
      let strength := updG st.gm.strength y x 0
      let owner := updG st.gm.owner y x 0
      let ny := wrap H y dy
      let nx := wrap W x dx
      let pieces := if pieces ny nx p = -1 then updG3 pieces ny nx p 0 else pieces
      let pieces := updG3 pieces ny nx p (pieces ny nx p + s)
      let gm : GameMapT := { owner := owner, production := st.gm.production, strength := strength }
      if pieces ny nx p > 255 then
        let lost := max 0 (pieces ny nx p - 255)
        .ok { gm := gm, pieces := updG3 pieces ny nx p 255, moved := moved,
              stats := updS st.stats p STATS_STRENGTH_LOSS_TO_MOVEMENT_CAP
                (st.stats p STATS_STRENGTH_LOSS_TO_MOVEMENT_CAP + lost) }
      else
        .ok { gm := gm, pieces := pieces, moved := moved, stats := st.stats }

/-! ### Phase 2 — the production loop of `apply_player_moves_dense` -/

/-- Loop body of the second triple loop of `apply_player_moves_dense`
(production and strength for pieces that stayed on an owned cell). -/
def productionStep (st : MoveSt) (t : Nat × Nat × Nat) : MoveSt :=
  let (y, x, p) := t
  if st.moved y x p = 1 then st
  else if st.gm.owner y x ≠ (p : Int) + 1 then st
  else
    let gm : GameMapT :=
      { owner := updG st.gm.owner y x 0, production := st.gm.production,
        strength := updG st.gm.strength y x 0 }
    let pieces := if st.pieces y x p = -1 then updG3 st.pieces y x p 0 else st.pieces
    let pieces := updG3 pieces y x p
      (pieces y x p + st.gm.production y x + st.gm.strength y x)
    let stats := updS st.stats p STATS_REALIZED_PRODUCTION
      (st.stats p STATS_REALIZED_PRODUCTION + st.gm.production y x)
    if pieces y x p > 255 then
      let lost := max 0 (pieces y x p - 255)
      let stats := updS stats p STATS_STRENGTH_LOSS_TO_PRODUCTION_CAP
        (stats p STATS_STRENGTH_LOSS_TO_PRODUCTION_CAP + lost)
      let stats := updS stats p STATS_REALIZED_PRODUCTION
        (stats p STATS_REALIZED_PRODUCTION - lost)
      { gm := gm, pieces := updG3 pieces y x p 255, moved := st.moved, stats := stats }
    else
      { gm := gm, pieces := pieces, moved := st.moved, stats := stats }

/-- `apply_player_moves_dense`: the move loop (phase 1) followed by the
production loop (phase 2). -/
def apply_player_moves_dense (H W P : Nat) (gm : GameMapT) (moves : Grid3) (stats : Stats) :
    Except PyErr MoveSt :=
  match (triples H W P).foldlM (moveStep H W moves)
      { gm := gm, pieces := fun _ _ _ => -1, moved := fun _ _ _ => 0, stats := stats } with
  | .error e => .error e
  | .ok st1 => .ok ((triples H W P).foldl productionStep st1)

/-! ### Phase 3 — `compute_injuries_dense` -/

/-- Scratch state of `compute_injuries_dense`. -/
structure InjSt where
  injuries : Grid3
  injureMap : Grid
  overkillDamage : Grid3
  overkillTaken : Grid3

/-- Innermost opponent loop of `compute_injuries_dense`: the piece of player
`p` (strength `strength`) bumps `injuries[ny,nx,d]` of every opponent `d ≠ p`
(lifting `-1` to 0 first), and for a non-zero delta also accumulates the
overkill grids. -/
def injureOpp (strength : Int) (dd : Int × Int) (ny nx p : Nat) (a : InjSt) (d : Nat) :
    InjSt :=
  if d ≠ p then
    let inj := if a.injuries ny nx d = -1 then updG3 a.injuries ny nx d 0 else a.injuries
    let inj := updG3 inj ny nx d (inj ny nx d + strength)
    if dd.1 ≠ 0 ∨ dd.2 ≠ 0 then
      { a with
        injuries := inj
        overkillDamage := updG3 a.overkillDamage ny nx p
          (a.overkillDamage ny nx p + strength)
        overkillTaken := updG3 a.overkillTaken ny nx d
          (a.overkillTaken ny nx d + strength) }
    else
      { a with injuries := inj }
  else a

/-- One direction delta of the neighbour-damage loop: resolve the toroidal
target cell, then run the opponent loop there. -/
def injureDelta (H W P : Nat) (strength : Int) (y x p : Nat) (a : InjSt)
    (dd : Int × Int) : InjSt :=
  (List.range P).foldl (injureOpp strength dd (wrap H y dd.1) (wrap W x dd.2) p) a

/-- Loop body of the first triple loop of `compute_injuries_dense`: a live
piece damages opponents at its own cell and the four orthogonal neighbours,
and is retaliated against by a leftover neutral site. -/
def injureStep (H W P : Nat) (gm : GameMapT) (pieces : Grid3) (a : InjSt)
    (t : Nat × Nat × Nat) : InjSt :=
  let (y, x, p) := t
  let strength := pieces y x p
  if strength < 0 then a
  else
    let a := DIR_TO_DELTA.foldl (injureDelta H W P strength y x p) a
    let siteStrength := gm.strength y x
    if siteStrength > 0 then
      let inj := if a.injuries y x p = -1 then updG3 a.injuries y x p 0 else a.injuries
      { a with
        injuries := updG3 inj y x p (inj y x p + siteStrength)
        injureMap := updG a.injureMap y x (a.injureMap y x + strength) }
    else a

/-- Inner opponent loop of the overkill aggregation: inflictor `p` is credited
`min(pieces[y,x,d], overkill_damage[y,x,p])` for every opponent `d` with a
positive piece. -/
def overkillOppStat (pieces : Grid3) (ov : InjSt) (y x p : Nat) (stats : Stats)
    (d : Nat) : Stats :=
  if d = p then stats
  else if pieces y x d > 0 then
    updS stats p STATS_OVERKILL_DAMAGE
      (stats p STATS_OVERKILL_DAMAGE + min (pieces y x d) (ov.overkillDamage y x p))
  else stats

/-- Loop body of the second triple loop of `compute_injuries_dense`: the
overkill statistics aggregation. -/
def overkillStatsStep (P : Nat) (pieces : Grid3) (ov : InjSt) (stats : Stats)
    (t : Nat × Nat × Nat) : Stats :=
  let (y, x, p) := t
  let stats :=
    if ov.overkillDamage y x p > 0 then
      (List.range P).foldl (overkillOppStat pieces ov y x p) stats
    else stats
  if pieces y x p > 0 ∧ ov.overkillTaken y x p > 0 then
    updS stats p STATS_OVERKILL_DAMAGE_TAKEN
      (stats p STATS_OVERKILL_DAMAGE_TAKEN + min (pieces y x p) (ov.overkillTaken y x p))
  else stats

/-- `compute_injuries_dense`. -/
def compute_injuries_dense (H W P : Nat) (gm : GameMapT) (pieces : Grid3) (stats : Stats) :
    InjSt × Stats :=
  let a0 : InjSt :=
    { injuries := fun _ _ _ => -1, injureMap := fun _ _ => 0,
      overkillDamage := fun _ _ _ => 0, overkillTaken := fun _ _ _ => 0 }
  let a := (triples H W P).foldl (injureStep H W P gm pieces) a0
  (a, (triples H W P).foldl (overkillStatsStep P pieces a) stats)

/-! ### Phase 4 — `resolve_combat_dense` -/

/-- Loop body of `resolve_combat_dense`. -/
def combatStep (injuries : Grid3) (st : Grid3 × Stats) (t : Nat × Nat × Nat) :
    Grid3 × Stats :=
  let (y, x, p) := t
  let (pieces, stats) := st
  let piece := pieces y x p
  let injury := injuries y x p
  if piece < 0 then (pieces, stats)
  else if injury ≥ piece then
    (updG3 pieces y x p (-1),
     updS stats p STATS_DAMAGE_TAKEN (stats p STATS_DAMAGE_TAKEN + piece))
  else if injury ≥ 0 then
    (updG3 pieces y x p (piece - injury),
     updS stats p STATS_DAMAGE_TAKEN (stats p STATS_DAMAGE_TAKEN + injury))
  else (pieces, stats)

/-- `resolve_combat_dense`. -/
def resolve_combat_dense (H W P : Nat) (pieces : Grid3) (injuries : Grid3) (stats : Stats) :
    Grid3 × Stats :=
  (triples H W P).foldl (combatStep injuries) (pieces, stats)

/-! ### Phase 5 — `rebuild_map_dense` -/

/-- State threaded through the rebuild loop. -/
structure RebuildSt where
  owner : Grid
  strength : Grid
  stats : Stats

/-- Loop body of `rebuild_map_dense`: a surviving piece claims its cell and is
credited with territory, production and strength. -/
def rebuildStep (production : Grid) (pieces : Grid3) (st : RebuildSt)
    (t : Nat × Nat × Nat) : RebuildSt :=
  let (y, x, p) := t
  if pieces y x p > -1 then
    let stats := updS st.stats p STATS_PRODUCTION
      (st.stats p STATS_PRODUCTION + production y x)
    let stats := updS stats p STATS_TERRITORY (stats p STATS_TERRITORY + 1)
    let stats := updS stats p STATS_STRENGTH (stats p STATS_STRENGTH + pieces y x p)
    { owner := updG st.owner y x ((p : Int) + 1),
      strength := updG st.strength y x (pieces y x p),
      stats := stats }
  else st

/-- `rebuild_map_dense`: environmental damage
`strength = max(0, strength - injure_map)` followed by the rebuild loop. -/
def rebuild_map_dense (H W P : Nat) (gm : GameMapT) (pieces : Grid3) (injureMap : Grid)
    (stats : Stats) : GameMapT × Stats :=
  let strength0 : Grid := fun y x => max 0 (gm.strength y x - injureMap y x)
  let st := (triples H W P).foldl (rebuildStep gm.production pieces)
    { owner := gm.owner, strength := strength0, stats := stats }
  ({ owner := st.owner, production := gm.production, strength := st.strength }, st.stats)

/-- `process_next_frame`: the four resolver phases in order, starting from a
fresh all-zero stats array. -/
def process_next_frame (H W P : Nat) (gm : GameMapT) (moves : Grid3) :
    Except PyErr (GameMapT × Stats) :=
  match apply_player_moves_dense H W P gm moves (fun _ _ => 0) with
  | .error e => .error e
  | .ok st1 =>
    let cij := compute_injuries_dense H W P st1.gm st1.pieces st1.stats
    let rc := resolve_combat_dense H W P st1.pieces cij.1.injuries cij.2
    .ok (rebuild_map_dense H W P st1.gm rc.1 cij.1.injureMap rc.2)

/-! ## `halite/docker.py` — RLE codec and move-reply parsing -/

/-- The run-length loop of `encode_halite_rle`, carrying the current run value
and count; the final run is emitted when the input is exhausted. -/
def rleLoop : Int → Int → List Int → List Int
  | curr, count, [] => [count, curr]
  | curr, count, o :: rest =>
    if o = curr then rleLoop curr (count + 1) rest
    else count :: curr :: rleLoop o 1 rest

/-- `encode_halite_rle` on the ravelled owner and strength planes: run-length
pairs `(count, owner)` followed by the raw strengths.  `owners[0]` on an empty
board raises `IndexError`. -/
def encode_halite_rle (owners strengths : List Int) : Except PyErr (List Int) :=
  match owners with
  | [] => .error .indexError
  | o :: rest => .ok (rleLoop o 1 rest ++ strengths)

/-- The triple-consuming assignment loop of `DockerAdapter.send_frame_sync`:
each `(x, y, d)` triple is dropped when out of bounds or on a cell not owned by
the bot, and otherwise stores `d` (validated nowhere) into the move grid;
repeated targets keep the last write. -/
def applyMoveTriples (H W : Nat) (owner : Grid) (botId : Int) :
    List Int → Grid → Grid
  | x :: y :: d :: rest, m =>
    let m :=
      if 0 ≤ x ∧ x < (W : Int) ∧ 0 ≤ y ∧ y < (H : Int) ∧ owner y.toNat x.toNat = botId
      then updG m y.toNat x.toNat d
      else m
    applyMoveTriples H W owner botId rest m
  | _, m => m

/-- The move-parsing tail of `DockerAdapter.send_frame_sync`, from the parsed
integer tokens of the bot's reply line: a token count that is not a multiple of
three raises `ValueError`; otherwise the triples populate a zero grid. -/
def parseMoves (H W : Nat) (owner : Grid) (botId : Int) (data : List Int) :
    Except PyErr Grid :=
  if data.length % 3 ≠ 0 then .error .valueError
  else .ok (applyMoveTriples H W owner botId data (fun _ _ => 0))

/-! ## `halite/match.py` — `ranking` -/

/-- Frames are `(H, W)` owner planes (`frames[..., 0]` of the stored
`(owner, strength)` pairs), listed per turn. -/
abbrev OwnerFrames := List (List (List Int))

/-- `owners.max()`: the largest owner id over every frame (at least 0). -/
def numPlayers (frames : OwnerFrames) : Nat :=
  (frames.foldl (fun (m : Int) (fr : List (List Int)) =>
    fr.foldl (fun m row => row.foldl max m) m) 0).toNat

/-- `territory[f, i]`: cells of frame `f` owned by player `i + 1`. -/
def territory (frames : OwnerFrames) (f i : Nat) : Nat :=
  ((frames.getD f []).map (fun row => row.countP (fun c => c = (i : Int) + 1))).sum

/-- `alive[f, i] = territory[f, i] > 0`. -/
def aliveAt (frames : OwnerFrames) (f i : Nat) : Bool :=
  decide (0 < territory frames f i)

/-- `tc_cum[f, i]`: cumulative territory of player `i + 1` through frame `f`. -/
def tc_cum (frames : OwnerFrames) (f i : Nat) : Nat :=
  ((List.range (f + 1)).map (fun g => territory frames g i)).sum

/-- The sort key `(territory[f, i], tc_cum[f, i], i + 1)` of `ranking`, as the
lexicographic `≤` used to order an elimination cohort. -/
def keyLe (frames : OwnerFrames) (f i j : Nat) : Prop :=
  territory frames f i < territory frames f j ∨
    (territory frames f i = territory frames f j ∧
      (tc_cum frames f i < tc_cum frames f j ∨
        (tc_cum frames f i = tc_cum frames f j ∧ i + 1 ≤ j + 1)))

instance (frames : OwnerFrames) (f : Nat) : DecidableRel (keyLe frames f) := fun i j => by
  unfold keyLe; infer_instance

/-- `np.where(alive[f] & ~alive[f+1])[0]`: the players (0-based indices)
alive at frame `f` and dead at frame `f + 1`, ascending. -/
def diedAt (frames : OwnerFrames) (f : Nat) : List Nat :=
  (List.range (numPlayers frames)).filter
    (fun i => aliveAt frames f i && !aliveAt frames (f + 1) i)

/-- One elimination cohort, sorted by the `(territory, tc_cum, id)` key.
Python's `sorted` is a stable sort; since the key's last component makes it
injective the sorted order is unique and insertion sort computes it. -/
def cohort (frames : OwnerFrames) (f : Nat) : List Nat :=
  List.insertionSort (keyLe frames f) (diedAt frames f)

/-- `np.where(alive[-1])[0]`: survivors at the final frame, ascending. -/
def survivorsAtEnd (frames : OwnerFrames) : List Nat :=
  (List.range (numPlayers frames)).filter
    (fun i => aliveAt frames (frames.length - 1) i)

/-- The elimination sequence: cohorts for `f ∈ 0..F-2` in order, then the
sorted survivors. -/
def elim_seq (frames : OwnerFrames) : List Nat :=
  ((List.range (frames.length - 1)).flatMap (fun f => cohort frames f)) ++
    List.insertionSort (keyLe frames (frames.length - 1)) (survivorsAtEnd frames)

/-- `best_first = elim_seq[::-1]`. -/
def best_first (frames : OwnerFrames) : List Nat :=
  (elim_seq frames).reverse

/-- One write `ranks[idx] = pos` of the rank-assignment loop. -/
def rankWrite (r : Nat → Int) (pi : Nat × Nat) : Nat → Int :=
  fun j => if j = pi.2 then (pi.1 : Int) else r j

/-- The `ranks` array: `for pos, idx in enumerate(best_first): ranks[idx] = pos`.
`np.empty` leaves unwritten entries arbitrary, modelled by the `init`
parameter. -/
def ranksFun (init : Nat → Int) (frames : OwnerFrames) : Nat → Int :=
  (best_first frames).enum.foldl rankWrite init

/-- `last_alive[i] = alive_counts[i] - 1`. -/
def lastAliveVal (frames : OwnerFrames) (i : Nat) : Int :=
  ((List.range frames.length).countP (fun f => aliveAt frames f i) : Int) - 1

/-- `ranking(frames)`: the rank list and the last-alive list. -/
def ranking (init : Nat → Int) (frames : OwnerFrames) : List Int × List Int :=
  ((List.range (numPlayers frames)).map (ranksFun init frames),
   (List.range (numPlayers frames)).map (lastAliveVal frames))

/-! ## `halite/map.py` — `_generate_map` and `_Region`

Floating-point values are modelled as rationals.  The draws of the single
`np.random.default_rng(seed)` PRNG are modelled by `RngOps`: one counter runs
through all draws in program order, so the whole draw sequence — and therefore
the generated map — is a function of the seed alone. -/

/-- The numpy PRNG draws, plus the two float operations that have no exact
rational counterpart: draw `n` of `rng.random()` is `unif n`, draw `n` of
`rng.integers(0, b)` is `intDraw n b`, and `x ** 1.5` (applied to each fresh
region factor) is `pow15`. -/
structure RngOps where
  unif : Nat → ℚ
  intDraw : Nat → Nat → Nat
  pow15 : ℚ → ℚ

/-- `math.isqrt`: the number of `d ∈ 0..n` with `d² ≤ n` is `⌊√n⌋ + 1`, which
keeps the definition structurally computable. -/
def isqrtN (n : Nat) : Nat :=
  (List.range (n + 1)).countP (fun d => d * d ≤ n) - 1

/-- `while P % d != 0: d -= 1`, starting from `d`: Python raises
`ZeroDivisionError` when the trial divisor reaches 0 (which happens exactly
when `P = 0`, since `isqrt(0) = 0`). -/
def largestDivisorSearch (P : Nat) : Nat → Nat → Except PyErr Nat
  | 0, _ => .error .valueError
  | fuel + 1, d =>
    if d = 0 then .error .zeroDivisionError
    else if P % d = 0 then .ok d
    else largestDivisorSearch P fuel (d - 1)

/-- `while c % P != 0: c -= 1` (the chunk-size trim); `c % 0` raises
`ZeroDivisionError`. -/
def trimToMultiple (P : Nat) : Nat → Nat → Except PyErr Nat
  | 0, c => if P = 0 then .error .zeroDivisionError else .ok c
  | fuel + 1, c =>
    if P = 0 then .error .zeroDivisionError
    else if c % P = 0 then .ok c
    else trimToMultiple P fuel (c - 1)

/-- The recursive `_Region` tree: a factor and the (possibly empty) grid of
child regions. -/
inductive RegionTree where
  | node (factor : ℚ) (children : List (List RegionTree))

def RegionTree.factor : RegionTree → ℚ
  | .node f _ => f

def RegionTree.children : RegionTree → List (List RegionTree)
  | .node _ cs => cs

def REGION_CHUNK_SIZE : Nat := 4

/-- `_Region.OWN_WEIGHT = 0.75`. -/
def REGION_OWN_WEIGHT : ℚ := 3 / 4

/-- `_Region.__init__`: draw the seed factor `rng.random() ** 1.5`, recurse
into up to `4 × 4` sub-regions (skipping size-zero ones), and apply one blur
pass to the child factors.  `len(self.children[0])` raises `IndexError` when
no child row was produced (degenerate `w` or `h`).  The `Nat` argument after
`ops` is recursion fuel (any value above `w + h` is enough, since `w + h`
strictly decreases); the last argument and result thread the draw counter. -/
def mkRegion (ops : RngOps) : Nat → Nat → Nat → Nat → Except PyErr (RegionTree × Nat)
  | 0, _, _, _ => .error .valueError
  | fuel + 1, w, h, c0 =>
    let factor := ops.pow15 (ops.unif c0)
    let c := c0 + 1
    if w = 1 ∧ h = 1 then .ok (.node factor [], c)
    else do
      let cw := w / REGION_CHUNK_SIZE
      let ch := h / REGION_CHUNK_SIZE
      let difW := w - REGION_CHUNK_SIZE * cw
      let difH := h - REGION_CHUNK_SIZE * ch
      let (children, c) ← (List.range REGION_CHUNK_SIZE).foldlM
        (fun (acc : List (List RegionTree) × Nat) a => do
          let (rows, c) := acc
          let tch := if a < difH then ch + 1 else ch
          if tch = 0 then pure (rows, c)
          else do
            let (row, c) ← (List.range REGION_CHUNK_SIZE).foldlM
              (fun (acc2 : List RegionTree × Nat) b => do
                let (row, c) := acc2
                let tcw := if b < difW then cw + 1 else cw
                if tcw = 0 then pure (row, c)
                else do
                  let (t, c') ← mkRegion ops fuel tcw tch c
                  pure (row ++ [t], c'))
              ([], c)
            if row.isEmpty then pure (rows, c) else pure (rows ++ [row], c))
        ([], c)
      match children with
      | [] => .error .indexError
      | r0 :: _ =>
        let nR := children.length
        let nC := r0.length
        let fac : Nat → Nat → ℚ := fun a b =>
          ((children.getD a []).getD b (.node 0 [])).factor
        let blurred : Nat → Nat → ℚ := fun a b =>
          fac a b * REGION_OWN_WEIGHT +
            (1 - REGION_OWN_WEIGHT) / 4 *
              (fac ((a + nR - 1) % nR) b + fac ((a + 1) % nR) b +
               fac a ((b + nC - 1) % nC) + fac a ((b + 1) % nC))
        let newChildren := (List.range nR).map fun a =>
          (List.range nC).map fun b =>
            RegionTree.node (blurred a b) ((children.getD a []).getD b (.node 0 [])).children
        .ok (.node factor newChildren, c)

/-- `_Region.get_factors`: a leaf yields `[[factor]]`; an interior node glues
its children's factor grids block-wise and multiplies every entry by its own
factor.  Fuel-recursive like `mkRegion`. -/
def getFactors : Nat → RegionTree → List (List ℚ)
  | 0, _ => []
  | fuel + 1, .node f children =>
    if children.isEmpty then [[f]]
    else
      let cf := children.map fun row => row.map (getFactors fuel)
      let nC := (children.headD []).length
      ((cf.map fun rowBlocks =>
          let blockRows := (rowBlocks.headD []).length
          (List.range blockRows).map fun iy =>
            ((List.range nC).map fun b => (rowBlocks.getD b []).getD iy []).flatten
        ).flatten).map fun row => row.map (· * f)

/-- Rational-valued grid (float arrays of the generator). -/
abbrev QGrid := Nat → Nat → ℚ

/-- `chunk[c][d]` with list indexing. -/
def chunkAt (chunk : List (List ℚ)) (c d : Nat) : ℚ := (chunk.getD c []).getD d 0

/-- Step 4 of `_generate_map` (tesselation) for the factor planes: the loop
writes `prod[a*ch + c, b*cw + d] = chunk[c][d]` exactly once per cell,
expressed pointwise. -/
def tesselateQ (chunk : List (List ℚ)) (ch cw dh dw : Nat) : QGrid :=
  fun y x => if y < ch * dh ∧ x < cw * dw then chunkAt chunk (y % ch) (x % cw) else 0

/-- Step 4 for the owner plane: one seed `owner[base_y + ch/2, base_x + cw/2]
= a*dw + b + 1` per tile, zeros elsewhere. -/
def tesselateOwner (ch cw dh dw : Nat) : Grid :=
  fun y x =>
    if y < ch * dh ∧ x < cw * dw ∧ y % ch = ch / 2 ∧ x % cw = cw / 2 then
      ((y / ch : Nat) * dw + x / cw + 1 : Int)
    else 0

/-- Step 5 source row: tile row `a` reads row `ch - 1 - c` of itself when
vertically mirrored. -/
def reflectIdx (refl : Bool) (ch : Nat) (y : Nat) : Nat :=
  let a := y / ch
  let c := y % ch
  a * ch + (if refl ∧ a % 2 = 1 then ch - 1 - c else c)

/-- Step 5 of `_generate_map`: mirror odd tile rows/columns when the tile
count along that axis is even. -/
def reflectGrid {α : Type} (reflectV reflectH : Bool) (ch cw : Nat)
    (g : Nat → Nat → α) : Nat → Nat → α :=
  fun y x => g (reflectIdx reflectV ch y) (reflectIdx reflectH cw x)

/-- Step 6 (horizontal orientation): tile column `b` reads row
`(base_y + b*shift + c) % self_height`. -/
def shiftHoriz {α : Type} (ch cw shift selfHeight : Nat) (g : Nat → Nat → α) :
    Nat → Nat → α :=
  fun y x => g ((y / ch * ch + x / cw * shift + y % ch) % selfHeight) x

/-- Step 6 (vertical orientation): tile row `a` reads column
`(base_x + a*shift + d) % self_width`. -/
def shiftVert {α : Type} (ch cw shift selfWidth : Nat) (g : Nat → Nat → α) :
    Nat → Nat → α :=
  fun y x => g y ((x / cw * cw + y / ch * shift + x % cw) % selfWidth)

/-- `OWN_WEIGHT = 0.66667` of the convolution blur (the decimal literal as an
exact rational). -/
def BLUR_OWN_WEIGHT : ℚ := 66667 / 100000

/-- One toroidal 4-neighbour blur pass of step 7 (`np.roll` wraparound). -/
def blurOnce (Hs Ws : Nat) (g : QGrid) : QGrid := fun y x =>
  BLUR_OWN_WEIGHT * g y x +
    (1 - BLUR_OWN_WEIGHT) / 4 *
      (g ((y + Hs - 1) % Hs) x + g ((y + 1) % Hs) x +
       g y ((x + Ws - 1) % Ws) + g y ((x + 1) % Ws))

/-- `arr.max()` over the `(Hs, Ws)` board (numpy raises on an empty array;
the generator only reaches this with `Hs, Ws ≥ 1`). -/
def gridMax (Hs Ws : Nat) (g : QGrid) : ℚ :=
  match (List.range Hs).flatMap (fun y => (List.range Ws).map fun x => g y x) with
  | [] => 0
  | v :: rest => rest.foldl max v

/-- `np.rint`: round to the nearest integer, halves to even. -/
def rintQ (q : ℚ) : Int :=
  let f := ⌊q⌋
  let r := q - (f : ℚ)
  if r < 1 / 2 then f
  else if 1 / 2 < r then f + 1
  else if f % 2 = 0 then f else f + 1

/-- Step 10 of `_generate_map` (`map.py` lines 204–205): every owned cell with
zero production is raised to production 1. -/
def fixUpProduction (owner prod : Grid) : Grid :=
  fun y x => if owner y x ≠ 0 ∧ prod y x = 0 then 1 else prod y x

/-- `_generate_map(width, height, num_players, seed)`, with the PRNG draws of
the seed supplied by `ops`.  Returns `(self_height, self_width, owner,
production, strength)`. -/
def _generate_map (ops : RngOps) (width height numPlayers : Nat) :
    Except PyErr (Nat × Nat × Grid × Grid × Grid) := do
  -- 1) tiling orientation and dimensions
  let preferHorizontal := ops.intDraw 0 2 ≠ 0
  let c := 1
  let (dh, dw) ←
    if preferHorizontal then do
      let dh ← largestDivisorSearch numPlayers (isqrtN numPlayers + 1)
        (isqrtN numPlayers)
      pure (dh, numPlayers / dh)
    else do
      let dw ← largestDivisorSearch numPlayers (isqrtN numPlayers + 1)
        (isqrtN numPlayers)
      pure (numPlayers / dw, dw)
  -- 2) chunk sizes, trimmed so the shifted tiles stay aligned
  let cw0 := width / dw
  let ch0 := height / dh
  let (cw, ch) ←
    if preferHorizontal then do
      let ch ← trimToMultiple numPlayers ch0 ch0
      pure (cw0, ch)
    else do
      let cw ← trimToMultiple numPlayers cw0 cw0
      pure (cw, ch0)
  let selfWidth := cw * dw
  let selfHeight := ch * dh
  -- 3) the two factor grids
  let (prodRegion, c) ← mkRegion ops (cw + ch + 1) cw ch c
  let (strRegion, c) ← mkRegion ops (cw + ch + 1) cw ch c
  let prodChunk := getFactors (cw + ch + 1) prodRegion
  let strChunk := getFactors (cw + ch + 1) strRegion
  -- 4) tesselate
  let owner0 := tesselateOwner ch cw dh dw
  let prod0 := tesselateQ prodChunk ch cw dh dw
  let str0 := tesselateQ strChunk ch cw dh dw
  -- 5) reflect
  let reflectV := decide (dh % 2 = 0)
  let reflectH := decide (dw % 2 = 0)
  let rOwner := reflectGrid reflectV reflectH ch cw owner0
  let rProd := reflectGrid reflectV reflectH ch cw prod0
  let rStr := reflectGrid reflectV reflectH ch cw str0
  -- 6) shift rows or columns (skipped for 6 players)
  let (sOwner, sProd, sStr, c) ←
    if numPlayers = 6 then pure (rOwner, rProd, rStr, c)
    else if preferHorizontal then do
      let shift := ops.intDraw c dw * (selfHeight / dw)
      pure (shiftHoriz ch cw shift selfHeight rOwner,
        shiftHoriz ch cw shift selfHeight rProd,
        shiftHoriz ch cw shift selfHeight rStr, c + 1)
    else do
      let shift := ops.intDraw c dh * (selfWidth / dh)
      pure (shiftVert ch cw shift selfWidth rOwner,
        shiftVert ch cw shift selfWidth rProd,
        shiftVert ch cw shift selfWidth rStr, c + 1)
  -- 7) blur
  let nIter := isqrtN (4 * selfWidth * selfHeight) / 10
  let prodB := Nat.iterate (blurOnce selfHeight selfWidth) (nIter + 1) sProd
  let strB := Nat.iterate (blurOnce selfHeight selfWidth) (nIter + 1) sStr
  -- 8) + 9) normalize and scale
  let prodMax := gridMax selfHeight selfWidth prodB
  let strMax := gridMax selfHeight selfWidth strB
  let topProd := (ops.intDraw c 10 : Int) + 6
  let topStr := (ops.intDraw (c + 1) 106 : Int) + 150
  let prodI : Grid := fun y x => rintQ (prodB y x / prodMax * topProd)
  let strI : Grid := fun y x => rintQ (strB y x / strMax * topStr)
  -- 10) owned cells get at least production 1
  .ok (selfHeight, selfWidth, sOwner, fixUpProduction sOwner prodI, strI)

/-! ## Result projections

Small observers of `Except` results, used to state concrete evaluations of the
embedded code without comparing whole function-valued states. -/

/-- The owner plane of a resolver result (`-1` when the turn raised). -/
def resultOwner (r : Except PyErr (GameMapT × Stats)) (y x : Nat) : Int :=
  match r with
  | .ok (g, _) => g.owner y x
  | .error _ => -1

/-- The production plane of a resolver result (`-1` when the turn raised). -/
def resultProduction (r : Except PyErr (GameMapT × Stats)) (y x : Nat) : Int :=
  match r with
  | .ok (g, _) => g.production y x
  | .error _ => -1

/-- The map of a resolver result (the given default when the turn raised). -/
def resultMap (r : Except PyErr (GameMapT × Stats)) (dflt : GameMapT) : GameMapT :=
  match r with
  | .ok (g, _) => g
  | .error _ => dflt

/-- `Σ_p stats[p].territory + stats[p].production` of a resolver result
(0 when the turn raised). -/
def resultSumTerrProd (r : Except PyErr (GameMapT × Stats)) : Int :=
  match r with
  | .ok (_, st) => ((List.range MAX_PLAYERS).map
      (fun p => st p STATS_TERRITORY + st p STATS_PRODUCTION)).sum
  | .error _ => 0

/-- A cell of a parsed move grid (`-1` when parsing raised). -/
def moveAt (r : Except PyErr Grid) (y x : Nat) : Int :=
  match r with
  | .ok m => m y x
  | .error _ => -1

/-- The production-invariance of the resolver, phrased on its result: a
successful turn returns a map whose production plane is unchanged. -/
def productionPreserved (gm : GameMapT) (r : Except PyErr (GameMapT × Stats)) : Prop :=
  match r with
  | .ok (g, _) => ∀ y x, g.production y x = gm.production y x
  | .error _ => True

/-! ## Resolver bookkeeping lemmas

The production plane is never written by any resolver phase, and each phase
touches only its own stat indices.  These facts are proved per loop body and
lifted to the folds. -/

theorem moveStep_ok_inv {H W : Nat} {moves : Grid3} {st st' : MoveSt}
    {t : Nat × Nat × Nat} (h : moveStep H W moves st t = .ok st') :
    st'.gm.production = st.gm.production ∧
    (∀ q j, j ≠ STATS_STRENGTH_LOSS_TO_MOVEMENT_CAP → st'.stats q j = st.stats q j) := by
  obtain ⟨y, x, p⟩ := t
  simp only [moveStep] at h
  split at h
  · simp only [Except.ok.injEq] at h
    subst h
    exact ⟨rfl, fun _ _ _ => rfl⟩
  · split at h
    · exact Except.noConfusion h
    · split at h <;> split at h <;> split at h <;>
        (simp only [Except.ok.injEq] at h
         subst h
         refine ⟨rfl, fun q j hj => ?_⟩
         first
         | exact updS_other _ _ _ _ (fun hc => hj hc.2)
         | rfl)

theorem moveFold_ok_inv {H W : Nat} {moves : Grid3} :
    ∀ {L : List (Nat × Nat × Nat)} {st st' : MoveSt},
      L.foldlM (moveStep H W moves) st = .ok st' →
      st'.gm.production = st.gm.production ∧
      (∀ q j, j ≠ STATS_STRENGTH_LOSS_TO_MOVEMENT_CAP → st'.stats q j = st.stats q j) := by
  intro L
  induction L with
  | nil =>
    intro st st' h
    simp only [List.foldlM_nil] at h
    cases h
    exact ⟨rfl, fun _ _ _ => rfl⟩
  | cons t L ih =>
    intro st st' h
    rw [List.foldlM_cons] at h
    cases hstep : moveStep H W moves st t with
    | error e =>
      rw [hstep] at h
      exact absurd h (by simp [Bind.bind, Except.bind])
    | ok s1 =>
      rw [hstep] at h
      replace h : L.foldlM (moveStep H W moves) s1 = .ok st' := h
      obtain ⟨hp, hs⟩ := ih h
      obtain ⟨hp', hs'⟩ := moveStep_ok_inv hstep
      exact ⟨hp.trans hp', fun q j hj => (hs q j hj).trans (hs' q j hj)⟩

theorem productionStep_inv (st : MoveSt) (t : Nat × Nat × Nat) :
    (productionStep st t).gm.production = st.gm.production ∧
    (∀ q j, j ≠ STATS_STRENGTH_LOSS_TO_PRODUCTION_CAP → j ≠ STATS_REALIZED_PRODUCTION →
      (productionStep st t).stats q j = st.stats q j) := by
  obtain ⟨y, x, p⟩ := t
  simp only [productionStep]
  split
  · exact ⟨rfl, fun _ _ _ _ => rfl⟩
  split
  · exact ⟨rfl, fun _ _ _ _ => rfl⟩
  split <;> split <;>
    (refine ⟨rfl, fun q j hj1 hj5 => ?_⟩
     simp [updS, hj1, hj5])

theorem productionFold_inv :
    ∀ (L : List (Nat × Nat × Nat)) (st : MoveSt),
      (L.foldl productionStep st).gm.production = st.gm.production ∧
      (∀ q j, j ≠ STATS_STRENGTH_LOSS_TO_PRODUCTION_CAP → j ≠ STATS_REALIZED_PRODUCTION →
        (L.foldl productionStep st).stats q j = st.stats q j) := by
  intro L
  induction L with
  | nil => exact fun st => ⟨rfl, fun _ _ _ _ => rfl⟩
  | cons t L ih =>
    intro st
    rw [List.foldl_cons]
    obtain ⟨hp, hs⟩ := ih (productionStep st t)
    obtain ⟨hp', hs'⟩ := productionStep_inv st t
    exact ⟨hp.trans hp', fun q j h1 h5 => (hs q j h1 h5).trans (hs' q j h1 h5)⟩

theorem apply_player_moves_dense_ok_inv {H W P : Nat} {gm : GameMapT} {moves : Grid3}
    {stats : Stats} {st1 : MoveSt}
    (h : apply_player_moves_dense H W P gm moves stats = .ok st1) :
    st1.gm.production = gm.production ∧
    (∀ q j, j ≠ STATS_STRENGTH_LOSS_TO_MOVEMENT_CAP →
      j ≠ STATS_STRENGTH_LOSS_TO_PRODUCTION_CAP → j ≠ STATS_REALIZED_PRODUCTION →
      st1.stats q j = stats q j) := by
  unfold apply_player_moves_dense at h
  cases hfold : (triples H W P).foldlM (moveStep H W moves)
      { gm := gm, pieces := fun _ _ _ => -1, moved := fun _ _ _ => 0, stats := stats } with
  | error e =>
    rw [hfold] at h
    exact Except.noConfusion h
  | ok stMid =>
    rw [hfold] at h
    replace h : Except.ok ((triples H W P).foldl productionStep stMid) = .ok st1 := h
    simp only [Except.ok.injEq] at h
    subst h
    obtain ⟨hp1, hs1⟩ := moveFold_ok_inv hfold
    obtain ⟨hp2, hs2⟩ := productionFold_inv (triples H W P) stMid
    exact ⟨hp2.trans hp1, fun q j h0 h1 h5 =>
      (hs2 q j h1 h5).trans (hs1 q j h0)⟩

/-! ## Claim C1 — the owned-cell production invariant -/

/-- Pre-turn state for the C1 counterexample on a 2×2 board with one player:
player 1 owns `(0,0)` (production 1, strength 5); every other cell is neutral
with production 0.  The state satisfies every documented post-generation
invariant (owners in range, strengths in `0..255`, owned cells have
production ≥ 1). -/
def c1Map : GameMapT where
  owner := fun y x => if y = 0 ∧ x = 0 then 1 else 0
  production := fun y x => if y = 0 ∧ x = 0 then 1 else 0
  strength := fun y x => if y = 0 ∧ x = 0 then 5 else 0

/-- Player 1 moves its piece EAST from its owned cell `(0,0)`. -/
def c1Moves : Grid3 := fun y x _ => if y = 0 ∧ x = 0 then 2 else 0

/-- C1 (counterexample): the pre-turn state satisfies the owned-cell
production invariant (and the move grid only moves owned cells, as the driver
guarantees), yet after one `process_next_frame` the captured cell `(0,1)` is
owned by player 1 with production 0 — the invariant does not survive the
turn. -/
theorem c1_counterexample :
    (∀ y < 2, ∀ x < 2, c1Map.owner y x ≠ 0 → 1 ≤ c1Map.production y x) ∧
    (∀ y < 2, ∀ x < 2, ∀ p < 1, c1Moves y x p = 0 ∨ c1Map.owner y x = (p : Int) + 1) ∧
    resultOwner (process_next_frame 2 2 1 c1Map c1Moves) 0 1 = 1 ∧
    resultProduction (process_next_frame 2 2 1 c1Map c1Moves) 0 1 = 0 :=
  ⟨by decide, by decide, by decide, by decide⟩

/-- C1 (amended): after map generation the fix-up step of `_generate_map`
(lines 204–205 of `map.py`) does guarantee that every owned cell has
production ≥ 1 (production values are nonnegative there); and the resolver
never changes the production plane.  The resolver does not, however, preserve
the invariant itself: it can hand ownership of a production-0 cell to a player
(see the counterexample). -/
theorem c1_amended :
    (∀ (owner prod : Grid) (y x : Nat), 0 ≤ prod y x → owner y x ≠ 0 →
      1 ≤ fixUpProduction owner prod y x) ∧
    (∀ (H W P : Nat) (gm : GameMapT) (moves : Grid3),
      productionPreserved gm (process_next_frame H W P gm moves)) := by
  constructor
  · intro owner prod y x h0 hown
    unfold fixUpProduction
    by_cases hz : prod y x = 0
    · simp [hown, hz]
    · simp only [hown, hz, and_false, if_false, ne_eq, not_false_iff, and_true]
      omega
  · intro H W P gm moves
    unfold productionPreserved process_next_frame
    cases happ : apply_player_moves_dense H W P gm moves (fun _ _ => 0) with
    | error e => exact trivial
    | ok st1 =>
      intro y x
      show st1.gm.production y x = gm.production y x
      rw [(apply_player_moves_dense_ok_inv happ).1]

/-- Witness for C1 (amended) at concrete inputs. -/
theorem c1_amended_witness :
    1 ≤ fixUpProduction (fun _ _ => 1) (fun _ _ => 0) 0 0 ∧
    productionPreserved c1Map (process_next_frame 2 2 1 c1Map c1Moves) :=
  ⟨c1_amended.1 (fun _ _ => 1) (fun _ _ => 0) 0 0 (by decide) (by decide),
   c1_amended.2 2 2 1 c1Map c1Moves⟩

/-! ## Claim C3 — RLE of the 3×3 example frame -/

/-- The ravelled owner plane `[[0,0,0],[0,1,0],[0,0,0]]`. -/
def c3Owners : List Int := [0, 0, 0, 0, 1, 0, 0, 0, 0]

/-- The nine all-zero strengths of the example frame. -/
def c3Strengths : List Int := [0, 0, 0, 0, 0, 0, 0, 0, 0]

/-- C3 (counterexample): encoding the 3×3 frame with owner plane
`[[0,0,0],[0,1,0],[0,0,0]]` and all-zero strengths yields the fifteen-integer
sequence `4 0 1 1 4 0` followed by nine strength zeros, which is not the
fourteen-integer sequence `4 0 1 1 4 0 0 0 0 0 0 0 0 0` stated by the claim
(that sequence has only eight strength values). -/
theorem c3_counterexample :
    encode_halite_rle c3Owners c3Strengths =
      .ok [4, 0, 1, 1, 4, 0, 0, 0, 0, 0, 0, 0, 0, 0, 0] ∧
    ([4, 0, 1, 1, 4, 0, 0, 0, 0, 0, 0, 0, 0, 0, 0] : List Int) ≠
      [4, 0, 1, 1, 4, 0, 0, 0, 0, 0, 0, 0, 0, 0] :=
  ⟨rfl, by decide⟩

/-- C3 (amended): encoding the 3×3 frame whose owner plane is
`[[0,0,0],[0,1,0],[0,0,0]]` with all strengths zero produces exactly the
space-separated integer sequence `4 0 1 1 4 0 0 0 0 0 0 0 0 0 0` — the three
runs `(4,0) (1,1) (4,0)` followed by `H·W = 9` zero strengths. -/
theorem c3_amended :
    encode_halite_rle c3Owners c3Strengths =
      .ok ([4, 0, 1, 1, 4, 0] ++ List.replicate 9 0) := by
  rfl

/-! ## Claim C2 — the territory+production sum across turns -/

theorem overkillOppFold_inv (pieces : Grid3) (ov : InjSt) (y x p : Nat) :
    ∀ (l : List Nat) (stats : Stats) (q j : Nat), j ≠ STATS_OVERKILL_DAMAGE →
      (l.foldl (overkillOppStat pieces ov y x p) stats) q j = stats q j := by
  intro l
  induction l with
  | nil => exact fun _ _ _ _ => rfl
  | cons d l ih =>
    intro stats q j hj
    rw [List.foldl_cons, ih _ q j hj]
    unfold overkillOppStat
    split
    · rfl
    split
    · exact updS_other _ _ _ _ (fun hc => hj hc.2)
    · rfl

theorem overkillStatsFold_inv (P : Nat) (pieces : Grid3) (ov : InjSt) :
    ∀ (L : List (Nat × Nat × Nat)) (stats : Stats) (q j : Nat),
      j ≠ STATS_OVERKILL_DAMAGE → j ≠ STATS_OVERKILL_DAMAGE_TAKEN →
      (L.foldl (overkillStatsStep P pieces ov) stats) q j = stats q j := by
  intro L
  induction L with
  | nil => exact fun _ _ _ _ _ => rfl
  | cons t L ih =>
    intro stats q j hj3 hj4
    rw [List.foldl_cons, ih _ q j hj3 hj4]
    obtain ⟨y, x, p⟩ := t
    simp only [overkillStatsStep]
    have hmid : ∀ s : Stats,
        (if ov.overkillDamage y x p > 0 then
          (List.range P).foldl (overkillOppStat pieces ov y x p) s else s) q j = s q j := by
      intro s
      split
      · exact overkillOppFold_inv pieces ov y x p (List.range P) s q j hj3
      · rfl
    split
    · rw [updS_other _ _ _ _ (fun hc => hj4 hc.2)]
      exact hmid stats
    · exact hmid stats

theorem compute_injuries_dense_stats_inv (H W P : Nat) (gm : GameMapT) (pieces : Grid3)
    (stats : Stats) (q j : Nat)
    (h3 : j ≠ STATS_OVERKILL_DAMAGE) (h4 : j ≠ STATS_OVERKILL_DAMAGE_TAKEN) :
    (compute_injuries_dense H W P gm pieces stats).2 q j = stats q j :=
  overkillStatsFold_inv P pieces _ (triples H W P) stats q j h3 h4

theorem combatFold_stats_inv (injuries : Grid3) :
    ∀ (L : List (Nat × Nat × Nat)) (st : Grid3 × Stats) (q j : Nat),
      j ≠ STATS_DAMAGE_TAKEN →
      (L.foldl (combatStep injuries) st).2 q j = st.2 q j := by
  intro L
  induction L with
  | nil => exact fun _ _ _ _ => rfl
  | cons t L ih =>
    intro st q j hj
    rw [List.foldl_cons, ih _ q j hj]
    obtain ⟨y, x, p⟩ := t
    obtain ⟨pieces, stats⟩ := st
    simp only [combatStep]
    split
    · rfl
    split
    · exact updS_other _ _ _ _ (fun hc => hj hc.2)
    split
    · exact updS_other _ _ _ _ (fun hc => hj hc.2)
    · rfl

theorem rebuildFold_stats_mono (prod : Grid) (pieces : Grid3)
    (hprod : ∀ y x, 0 ≤ prod y x) (q j : Nat)
    (hj : j = STATS_TERRITORY ∨ j = STATS_PRODUCTION) :
    ∀ (L : List (Nat × Nat × Nat)) (st : RebuildSt),
      st.stats q j ≤ (L.foldl (rebuildStep prod pieces) st).stats q j := by
  intro L
  induction L with
  | nil => exact fun st => le_refl _
  | cons t L ih =>
    intro st
    rw [List.foldl_cons]
    refine le_trans ?_ (ih (rebuildStep prod pieces st t))
    obtain ⟨y, x, p⟩ := t
    simp only [rebuildStep]
    split
    · have hpy := hprod y x
      rcases hj with hj | hj <;> subst hj <;> by_cases hq : q = p <;>
        (simp [updS, hq, STATS_TERRITORY, STATS_PRODUCTION, STATS_STRENGTH]
         all_goals omega)
    · exact le_refl _

/-- Every `territory`/`production` stat entry of a successful turn is
nonnegative (they are written only by the rebuild phase, which adds 1 per
surviving piece and nonnegative production). -/
theorem process_next_frame_stats67_nonneg {H W P : Nat} {gm : GameMapT} {moves : Grid3}
    {gm' : GameMapT} {stats : Stats}
    (h : process_next_frame H W P gm moves = .ok (gm', stats))
    (hprod : ∀ y x, 0 ≤ gm.production y x) (q j : Nat)
    (hj : j = STATS_TERRITORY ∨ j = STATS_PRODUCTION) :
    0 ≤ stats q j := by
  unfold process_next_frame at h
  cases happ : apply_player_moves_dense H W P gm moves (fun _ _ => 0) with
  | error e => rw [happ] at h; exact Except.noConfusion h
  | ok st1 =>
    rw [happ] at h
    replace h := Except.ok.inj h
    have hstats : stats = (rebuild_map_dense H W P st1.gm
        (resolve_combat_dense H W P st1.pieces
          (compute_injuries_dense H W P st1.gm st1.pieces st1.stats).1.injuries
          (compute_injuries_dense H W P st1.gm st1.pieces st1.stats).2).1
        (compute_injuries_dense H W P st1.gm st1.pieces st1.stats).1.injureMap
        (resolve_combat_dense H W P st1.pieces
          (compute_injuries_dense H W P st1.gm st1.pieces st1.stats).1.injuries
          (compute_injuries_dense H W P st1.gm st1.pieces st1.stats).2).2).2 :=
      (congrArg Prod.snd h).symm
    have h0 : st1.stats q j = 0 := by
      refine (apply_player_moves_dense_ok_inv happ).2 q j ?_ ?_ ?_ <;>
        (rcases hj with hj | hj <;> subst hj <;> decide)
    have h2 : (compute_injuries_dense H W P st1.gm st1.pieces st1.stats).2 q j = st1.stats q j := by
      refine compute_injuries_dense_stats_inv H W P _ _ _ q j ?_ ?_ <;>
        (rcases hj with hj | hj <;> subst hj <;> decide)
    have h3 : (resolve_combat_dense H W P st1.pieces
        (compute_injuries_dense H W P st1.gm st1.pieces st1.stats).1.injuries
        (compute_injuries_dense H W P st1.gm st1.pieces st1.stats).2).2 q j =
        (compute_injuries_dense H W P st1.gm st1.pieces st1.stats).2 q j := by
      refine combatFold_stats_inv _ (triples H W P) _ q j ?_
      rcases hj with hj | hj <;> subst hj <;> decide
    have hprod1 : ∀ y x, 0 ≤ st1.gm.production y x := by
      intro y x
      rw [congrFun (congrFun (apply_player_moves_dense_ok_inv happ).1 y) x]
      exact hprod y x
    have h4 := rebuildFold_stats_mono st1.gm.production
      (resolve_combat_dense H W P st1.pieces
        (compute_injuries_dense H W P st1.gm st1.pieces st1.stats).1.injuries
        (compute_injuries_dense H W P st1.gm st1.pieces st1.stats).2).1
      hprod1 q j hj (triples H W P)
      { owner := st1.gm.owner,
        strength := fun y x => max 0 (st1.gm.strength y x -
          (compute_injuries_dense H W P st1.gm st1.pieces st1.stats).1.injureMap y x),
        stats := (resolve_combat_dense H W P st1.pieces
          (compute_injuries_dense H W P st1.gm st1.pieces st1.stats).1.injuries
          (compute_injuries_dense H W P st1.gm st1.pieces st1.stats).2).2 }
    rw [hstats]
    dsimp only at h4
    rw [h3, h2, h0] at h4
    exact h4

/-- Pre-turn state for the C2 counterexample on a 1×5 board with two players:
player 1 owns `(0,0)` and player 2 owns `(0,2)`, each with production 1 and
strength 10; the remaining cells are neutral. -/
def c2Map : GameMapT where
  owner := fun y x => if y = 0 ∧ x = 0 then 1 else if y = 0 ∧ x = 2 then 2 else 0
  production := fun y x => if y = 0 ∧ (x = 0 ∨ x = 2) then 1 else 0
  strength := fun y x => if y = 0 ∧ (x = 0 ∨ x = 2) then 10 else 0

/-- Turn 1 of the C2 counterexample: everyone stays. -/
def c2MovesStill : Grid3 := fun _ _ _ => 0

/-- Turn 2 of the C2 counterexample: player 1 moves EAST, player 2 WEST; the
two pieces collide at `(0,1)` and annihilate each other. -/
def c2MovesAttack : Grid3 := fun y x p =>
  if y = 0 ∧ x = 0 ∧ p = 0 then 2 else if y = 0 ∧ x = 2 ∧ p = 1 then 4 else 0

/-- C2 (counterexample): across two consecutive turns of
`process_next_frame`, `Σ_p stats[p].territory + stats[p].production` drops
from 4 to 0 (a mutual kill destroys all pieces), so the quantity is not
monotone non-decreasing between turns. -/
theorem c2_counterexample :
    resultSumTerrProd (process_next_frame 1 5 2 c2Map c2MovesStill) = 4 ∧
    resultSumTerrProd (process_next_frame 1 5 2
      (resultMap (process_next_frame 1 5 2 c2Map c2MovesStill) c2Map) c2MovesAttack) = 0 ∧
    ¬((4 : Int) ≤ 0) :=
  ⟨by decide, by decide, by decide⟩

/-- C2 (amended): the per-turn sum `Σ_p stats[p].territory +
stats[p].production` is not monotone across turns — combat deaths shrink it
(see the counterexample).  What does hold is that the sum each turn is
nonnegative whenever the map's production plane is nonnegative (as generated
maps are): territory and production stats are only ever credited, never
debited, within a turn. -/
theorem c2_amended (H W P : Nat) (gm : GameMapT) (moves : Grid3)
    (hprod : ∀ y x, 0 ≤ gm.production y x) :
    0 ≤ resultSumTerrProd (process_next_frame H W P gm moves) := by
  unfold resultSumTerrProd
  cases hpf : process_next_frame H W P gm moves with
  | error e => exact le_refl 0
  | ok pr =>
    obtain ⟨gm', stats⟩ := pr
    refine List.sum_nonneg ?_
    intro v hv
    simp only [List.mem_map] at hv
    obtain ⟨p, hp, rfl⟩ := hv
    have h6 : 0 ≤ stats p STATS_TERRITORY :=
      process_next_frame_stats67_nonneg hpf hprod p _ (Or.inl rfl)
    have h7 : 0 ≤ stats p STATS_PRODUCTION :=
      process_next_frame_stats67_nonneg hpf hprod p _ (Or.inr rfl)
    exact add_nonneg h6 h7

/-- Witness for C2 (amended) at a concrete state. -/
theorem c2_amended_witness :
    0 ≤ resultSumTerrProd (process_next_frame 1 5 2 c2Map c2MovesStill) :=
  c2_amended 1 5 2 c2Map c2MovesStill (by
    intro y x
    simp only [c2Map]
    split <;> decide)

/-! ## Claim C4 — phase 2: production and strength for stayers -/

/-- C4: in phase 2 of the resolver, a triple `(y, x, p)` with
`moved[y,x,p] == 0` and `owner[y,x] == p+1` has its piece (lifted from `-1` to
0 if absent) gain `production[y,x] + strength[y,x]`, clamped at 255;
`production[y,x]` is credited to `realized_production`, and exactly the
overflow beyond 255 is charged to `production_cap_loss` and subtracted back
from `realized_production`. -/
theorem c4_production_phase (st : MoveSt) (y x p : Nat)
    (hmoved : st.moved y x p = 0) (howner : st.gm.owner y x = (p : Int) + 1) :
    (productionStep st (y, x, p)).pieces y x p =
      min 255 ((if st.pieces y x p = -1 then 0 else st.pieces y x p) +
        st.gm.production y x + st.gm.strength y x) ∧
    (productionStep st (y, x, p)).stats p STATS_REALIZED_PRODUCTION =
      st.stats p STATS_REALIZED_PRODUCTION + st.gm.production y x -
        max 0 ((if st.pieces y x p = -1 then 0 else st.pieces y x p) +
          st.gm.production y x + st.gm.strength y x - 255) ∧
    (productionStep st (y, x, p)).stats p STATS_STRENGTH_LOSS_TO_PRODUCTION_CAP =
      st.stats p STATS_STRENGTH_LOSS_TO_PRODUCTION_CAP +
        max 0 ((if st.pieces y x p = -1 then 0 else st.pieces y x p) +
          st.gm.production y x + st.gm.strength y x - 255) := by
  have h1 : ¬(st.moved y x p = 1) := by rw [hmoved]; decide
  have h2 : ¬(st.gm.owner y x ≠ (p : Int) + 1) := by rw [howner]; simp
  by_cases hlift : st.pieces y x p = -1 <;>
    (simp only [productionStep, h1, if_false, h2, hlift, if_true, ite_false, ite_true,
      STATS_REALIZED_PRODUCTION, STATS_STRENGTH_LOSS_TO_PRODUCTION_CAP]
     split <;> rename_i hov <;>
       (simp [updG3, hlift] at hov
        simp [updG3, updS, STATS_REALIZED_PRODUCTION, STATS_STRENGTH_LOSS_TO_PRODUCTION_CAP]
        omega))

/-- Concrete state for the C4 witness: an unmoved piece of player 1 on its
owned cell with production 2 and strength 3. -/
def c4St : MoveSt where
  gm := { owner := fun _ _ => 1, production := fun _ _ => 2, strength := fun _ _ => 3 }
  pieces := fun _ _ _ => -1
  moved := fun _ _ _ => 0
  stats := fun _ _ => 0

/-- Witness for C4 at the concrete state. -/
theorem c4_production_phase_witness :
    (productionStep c4St (0, 0, 0)).pieces 0 0 0 =
      min 255 ((if c4St.pieces 0 0 0 = -1 then 0 else c4St.pieces 0 0 0) +
        c4St.gm.production 0 0 + c4St.gm.strength 0 0) ∧
    (productionStep c4St (0, 0, 0)).stats 0 STATS_REALIZED_PRODUCTION =
      c4St.stats 0 STATS_REALIZED_PRODUCTION + c4St.gm.production 0 0 -
        max 0 ((if c4St.pieces 0 0 0 = -1 then 0 else c4St.pieces 0 0 0) +
          c4St.gm.production 0 0 + c4St.gm.strength 0 0 - 255) ∧
    (productionStep c4St (0, 0, 0)).stats 0 STATS_STRENGTH_LOSS_TO_PRODUCTION_CAP =
      c4St.stats 0 STATS_STRENGTH_LOSS_TO_PRODUCTION_CAP +
        max 0 ((if c4St.pieces 0 0 0 = -1 then 0 else c4St.pieces 0 0 0) +
          c4St.gm.production 0 0 + c4St.gm.strength 0 0 - 255) :=
  c4_production_phase c4St 0 0 0 (by decide) (by decide)

/-! ## Claim C5 — phase 5: last-write-wins ownership -/

/-- A fold whose steps all fix the accumulator leaves it unchanged. -/
theorem foldl_fixed {α β : Type} (f : α → β → α) (l : List β) (v : α)
    (h : ∀ (v' : α) (b : β), b ∈ l → f v' b = v') : l.foldl f v = v := by
  induction l generalizing v with
  | nil => rfl
  | cons a t ih =>
    rw [List.foldl_cons, h v a (List.mem_cons_self a t)]
    exact ih v (fun v' b hb => h v' b (List.mem_cons_of_mem a hb))

/-- Folding over a `flatMap` is the nested fold. -/
theorem foldl_flatMap {α β γ : Type} (f : α → γ → α) (g : β → List γ)
    (l : List β) (v : α) :
    (l.flatMap g).foldl f v = l.foldl (fun v b => (g b).foldl f v) v := by
  induction l generalizing v with
  | nil => rfl
  | cons a t ih =>
    rw [List.flatMap_cons, List.foldl_append, List.foldl_cons]
    exact ih _

/-- Folding a function that acts only at the single occurrence of `y` in a
duplicate-free list computes just that action. -/
theorem foldl_single {α : Type} (f : α → Nat → α) (y : Nat) (g : α → α)
    (hother : ∀ v y', y' ≠ y → f v y' = v) (hy : ∀ v, f v y = g v) :
    ∀ (l : List Nat), y ∈ l → l.Nodup → ∀ v, l.foldl f v = g v := by
  intro l
  induction l with
  | nil => intro h; exact absurd h (List.not_mem_nil y)
  | cons a t ih =>
    intro hmem hnd v
    rw [List.foldl_cons]
    by_cases ha : a = y
    · subst ha
      rw [hy v]
      have hyt : a ∉ t := (List.nodup_cons.mp hnd).1
      exact foldl_fixed f t (g v) (fun v' b hb => hother v' b (fun he => hyt (he ▸ hb)))
    · rw [hother v a ha]
      have hmem' : y ∈ t := by
        rcases List.mem_cons.mp hmem with h | h
        · exact absurd h.symm ha
        · exact h
      exact ih hmem' (List.nodup_cons.mp hnd).2 v

/-- At a fixed cell `(y, x)` the rebuild fold behaves like a scalar fold: each
triple `(y, x, p)` with a live piece overwrites the cell's owner with `p + 1`
and its strength with the piece value, and every other triple leaves the cell
alone. -/
theorem rebuildFold_cell (prod : Grid) (pieces : Grid3) (y x : Nat) :
    ∀ (L : List (Nat × Nat × Nat)) (st : RebuildSt),
      ((L.foldl (rebuildStep prod pieces) st).owner y x =
        L.foldl (fun (v : Int) (t : Nat × Nat × Nat) =>
          if t.1 = y ∧ t.2.1 = x ∧ pieces y x t.2.2 > -1 then (t.2.2 : Int) + 1 else v)
          (st.owner y x)) ∧
      ((L.foldl (rebuildStep prod pieces) st).strength y x =
        L.foldl (fun (v : Int) (t : Nat × Nat × Nat) =>
          if t.1 = y ∧ t.2.1 = x ∧ pieces y x t.2.2 > -1 then pieces y x t.2.2 else v)
          (st.strength y x)) := by
  intro L
  induction L with
  | nil => exact fun st => ⟨rfl, rfl⟩
  | cons t L ih =>
    intro st
    obtain ⟨ty, tx, tp⟩ := t
    obtain ⟨ihO, ihS⟩ := ih (rebuildStep prod pieces st (ty, tx, tp))
    have hstepO : (rebuildStep prod pieces st (ty, tx, tp)).owner y x =
        (if ty = y ∧ tx = x ∧ pieces y x tp > -1 then ((tp : Int) + 1) else st.owner y x) := by
      simp only [rebuildStep]
      split
      · rename_i hlive
        dsimp only
        by_cases hyx : ty = y ∧ tx = x
        · obtain ⟨h1, h2⟩ := hyx
          subst h1; subst h2
          simp [updG, hlive]
        · rw [updG_other _ _ _ _ (fun hc => hyx ⟨hc.1.symm, hc.2.symm⟩),
            if_neg (fun hc => hyx ⟨hc.1, hc.2.1⟩)]
      · rename_i hdead
        rw [if_neg ?_]
        rintro ⟨h1, h2, h3⟩
        subst h1; subst h2
        exact hdead h3
    have hstepS : (rebuildStep prod pieces st (ty, tx, tp)).strength y x =
        (if ty = y ∧ tx = x ∧ pieces y x tp > -1 then pieces y x tp else st.strength y x) := by
      simp only [rebuildStep]
      split
      · rename_i hlive
        dsimp only
        by_cases hyx : ty = y ∧ tx = x
        · obtain ⟨h1, h2⟩ := hyx
          subst h1; subst h2
          simp [updG, hlive]
        · rw [updG_other _ _ _ _ (fun hc => hyx ⟨hc.1.symm, hc.2.symm⟩),
            if_neg (fun hc => hyx ⟨hc.1, hc.2.1⟩)]
      · rename_i hdead
        rw [if_neg ?_]
        rintro ⟨h1, h2, h3⟩
        subst h1; subst h2
        exact hdead h3
    refine ⟨?_, ?_⟩
    · rw [List.foldl_cons, List.foldl_cons, ihO, hstepO]
    · rw [List.foldl_cons, List.foldl_cons, ihS, hstepS]

/-- The scalar cell fold over the full row-major triple walk reduces to a fold
over the player indices of the one matching cell. -/
theorem foldl_select_triples (Q : Nat → Prop) [DecidablePred Q] (val : Nat → Int)
    (H W P : Nat) (y x : Nat) (hy : y < H) (hx : x < W) (v : Int) :
    (triples H W P).foldl (fun (v : Int) (t : Nat × Nat × Nat) =>
        if t.1 = y ∧ t.2.1 = x ∧ Q t.2.2 then val t.2.2 else v) v =
      (List.range P).foldl (fun (v : Int) (p : Nat) => if Q p then val p else v) v := by
  unfold triples
  rw [foldl_flatMap]
  have hx_fold : ∀ (v : Int),
      ((List.range W).flatMap fun x' => (List.range P).map fun p => (y, x', p)).foldl
        (fun (v : Int) (t : Nat × Nat × Nat) =>
          if t.1 = y ∧ t.2.1 = x ∧ Q t.2.2 then val t.2.2 else v) v =
      (List.range P).foldl (fun (v : Int) (p : Nat) => if Q p then val p else v) v := by
    intro v
    rw [foldl_flatMap]
    have hinner : ∀ (v : Int),
        ((List.range P).map fun p => (y, x, p)).foldl
          (fun (v : Int) (t : Nat × Nat × Nat) =>
            if t.1 = y ∧ t.2.1 = x ∧ Q t.2.2 then val t.2.2 else v) v =
        (List.range P).foldl (fun (v : Int) (p : Nat) => if Q p then val p else v) v := by
      intro v
      rw [List.foldl_map]
      congr 1
      funext v' p
      simp
    refine foldl_single _ x
      (fun v => (List.range P).foldl (fun (v : Int) (p : Nat) => if Q p then val p else v) v)
      ?_ ?_ (List.range W) (List.mem_range.mpr hx) (List.nodup_range W) v
    · intro v' x' hx'
      refine foldl_fixed _ _ _ ?_
      intro v'' t ht
      simp only [List.mem_map, List.mem_range] at ht
      obtain ⟨p, hp, rfl⟩ := ht
      exact if_neg (fun hc => hx' hc.2.1)
    · intro v'
      exact hinner v'
  refine foldl_single _ y
    (fun v => (List.range P).foldl (fun (v : Int) (p : Nat) => if Q p then val p else v) v)
    ?_ ?_ (List.range H) (List.mem_range.mpr hy) (List.nodup_range H) v
  · intro v' y' hy'
    refine foldl_fixed _ _ _ ?_
    intro v'' t ht
    simp only [List.mem_flatMap, List.mem_map, List.mem_range] at ht
    obtain ⟨x', hx', p, hp, rfl⟩ := ht
    exact if_neg (fun hc => hy' hc.1)
  · intro v'
    exact hx_fold v'

/-- In a select-fold over ascending player indices, the greatest selected
index wins. -/
theorem foldl_lastLive (Q : Nat → Prop) [DecidablePred Q] (val : Nat → Int)
    (P pmax : Nat) (hlt : pmax < P) (hQ : Q pmax) (hmax : ∀ q, Q q → q ≤ pmax) (v : Int) :
    (List.range P).foldl (fun (v : Int) (p : Nat) => if Q p then val p else v) v =
      val pmax := by
  obtain ⟨k, rfl⟩ : ∃ k, P = (pmax + 1) + k := ⟨P - (pmax + 1), by omega⟩
  rw [List.range_add, List.foldl_append, List.range_succ, List.foldl_append,
    List.foldl_cons, List.foldl_nil, if_pos hQ]
  refine foldl_fixed _ _ _ ?_
  intro v' b hb
  simp only [List.mem_map, List.mem_range] at hb
  obtain ⟨j, hj, rfl⟩ := hb
  refine if_neg (fun hc => ?_)
  have := hmax _ hc
  omega

/-- C5: in phase 5 the rebuild loop iterates players ascending, so when two or
more distinct players still have live pieces at `(y, x)` the greatest player
index `p2` ends up owning the cell (`owner := p2 + 1`, `strength :=` its piece
value), while every player with a live piece at that cell is still credited
`+1` territory, `production[y,x]` production and its piece value strength by
its own rebuild step. -/
theorem c5_rebuild_tiebreak (H W P : Nat) (gm : GameMapT) (pieces : Grid3)
    (injureMap : Grid) (stats : Stats) (y x p1 p2 : Nat)
    (hy : y < H) (hx : x < W) (hp2 : p2 < P) (_hne : p1 ≠ p2)
    (_hlive1 : pieces y x p1 > -1) (hlive2 : pieces y x p2 > -1)
    (hmax : ∀ q, pieces y x q > -1 → q ≤ p2) :
    ((rebuild_map_dense H W P gm pieces injureMap stats).1.owner y x = (p2 : Int) + 1 ∧
     (rebuild_map_dense H W P gm pieces injureMap stats).1.strength y x = pieces y x p2) ∧
    (∀ q, pieces y x q > -1 →
      ∀ st : RebuildSt,
        (rebuildStep gm.production pieces st (y, x, q)).stats q STATS_TERRITORY =
          st.stats q STATS_TERRITORY + 1 ∧
        (rebuildStep gm.production pieces st (y, x, q)).stats q STATS_PRODUCTION =
          st.stats q STATS_PRODUCTION + gm.production y x ∧
        (rebuildStep gm.production pieces st (y, x, q)).stats q STATS_STRENGTH =
          st.stats q STATS_STRENGTH + pieces y x q) := by
  constructor
  · constructor
    · show ((triples H W P).foldl (rebuildStep gm.production pieces) _).owner y x = _
      rw [(rebuildFold_cell gm.production pieces y x (triples H W P) _).1,
        foldl_select_triples (fun q => pieces y x q > -1) (fun q => (q : Int) + 1)
          H W P y x hy hx,
        foldl_lastLive (fun q => pieces y x q > -1) (fun q => (q : Int) + 1)
          P p2 hp2 hlive2 hmax]
    · show ((triples H W P).foldl (rebuildStep gm.production pieces) _).strength y x = _
      rw [(rebuildFold_cell gm.production pieces y x (triples H W P) _).2,
        foldl_select_triples (fun q => pieces y x q > -1) (fun q => pieces y x q)
          H W P y x hy hx,
        foldl_lastLive (fun q => pieces y x q > -1) (fun q => pieces y x q)
          P p2 hp2 hlive2 hmax]
  · intro q hq st
    simp only [rebuildStep, hq, if_true, ite_true]
    refine ⟨?_, ?_, ?_⟩ <;>
      simp [updS, STATS_TERRITORY, STATS_PRODUCTION, STATS_STRENGTH]

/-- Piece grid for the C5 witness: players 1 and 2 both have surviving pieces
on the single cell of a 1×1 board. -/
def c5Pieces : Grid3 := fun _ _ p => if p = 0 then 5 else if p = 1 then 3 else -1

/-- Map for the C5 witness: a neutral 1×1 board of production 0, strength 9. -/
def c5Gm : GameMapT where
  owner := fun _ _ => 0
  production := fun _ _ => 0
  strength := fun _ _ => 9

/-- Witness for C5 at the concrete two-survivor cell. -/
theorem c5_rebuild_tiebreak_witness :
    ((rebuild_map_dense 1 1 2 c5Gm c5Pieces (fun _ _ => 0) (fun _ _ => 0)).1.owner 0 0 =
        ((1 : Nat) : Int) + 1 ∧
     (rebuild_map_dense 1 1 2 c5Gm c5Pieces (fun _ _ => 0) (fun _ _ => 0)).1.strength 0 0 =
        c5Pieces 0 0 1) ∧
    (∀ q, c5Pieces 0 0 q > -1 →
      ∀ st : RebuildSt,
        (rebuildStep c5Gm.production c5Pieces st (0, 0, q)).stats q STATS_TERRITORY =
          st.stats q STATS_TERRITORY + 1 ∧
        (rebuildStep c5Gm.production c5Pieces st (0, 0, q)).stats q STATS_PRODUCTION =
          st.stats q STATS_PRODUCTION + c5Gm.production 0 0 ∧
        (rebuildStep c5Gm.production c5Pieces st (0, 0, q)).stats q STATS_STRENGTH =
          st.stats q STATS_STRENGTH + c5Pieces 0 0 q) :=
  c5_rebuild_tiebreak 1 1 2 c5Gm c5Pieces (fun _ _ => 0) (fun _ _ => 0) 0 0 0 1
    (by decide) (by decide) (by decide) (by decide) (by decide) (by decide)
    (by
      intro q hq
      match q with
      | 0 => exact Nat.zero_le 1
      | 1 => exact le_refl 1
      | (n + 2) => simp [c5Pieces] at hq)

/-! ## Claim C6 — phase 3: environmental retaliation -/

/-- The neighbour-damage loop of `compute_injuries_dense` for one piece of
player `p` never writes the injuries of `p` itself (every write goes to an
opponent index `d ≠ p`) and never touches `injure_map`. -/
theorem injureOpp_inv (strength : Int) (dd : Int × Int) (ny nx p : Nat) (a : InjSt) (d : Nat) :
    (∀ yy xx, (injureOpp strength dd ny nx p a d).injuries yy xx p = a.injuries yy xx p) ∧
    (∀ yy xx, (injureOpp strength dd ny nx p a d).injureMap yy xx = a.injureMap yy xx) := by
  by_cases hd : d = p
  · subst hd
    refine ⟨fun yy xx => ?_, fun yy xx => ?_⟩ <;> simp [injureOpp]
  · have hpd : ¬(p = d) := fun h => hd h.symm
    refine ⟨fun yy xx => ?_, fun yy xx => ?_⟩ <;>
      (unfold injureOpp
       by_cases hla : a.injuries ny nx d = -1 <;>
         by_cases hdd : dd.1 ≠ 0 ∨ dd.2 ≠ 0 <;>
           simp [hd, hla, hdd, updG3, hpd])

theorem injureOppFold_inv (strength : Int) (dd : Int × Int) (ny nx p : Nat) :
    ∀ (l : List Nat) (a : InjSt),
      (∀ yy xx, ((l.foldl (injureOpp strength dd ny nx p) a).injuries yy xx p =
        a.injuries yy xx p)) ∧
      (∀ yy xx, ((l.foldl (injureOpp strength dd ny nx p) a).injureMap yy xx =
        a.injureMap yy xx)) := by
  intro l
  induction l with
  | nil => exact fun a => ⟨fun _ _ => rfl, fun _ _ => rfl⟩
  | cons d l ih =>
    intro a
    rw [List.foldl_cons]
    obtain ⟨h1, h2⟩ := ih (injureOpp strength dd ny nx p a d)
    obtain ⟨h1', h2'⟩ := injureOpp_inv strength dd ny nx p a d
    exact ⟨fun yy xx => (h1 yy xx).trans (h1' yy xx),
           fun yy xx => (h2 yy xx).trans (h2' yy xx)⟩

theorem injureDeltaFold_inv (H W P : Nat) (strength : Int) (y x p : Nat) :
    ∀ (ds : List (Int × Int)) (a : InjSt),
      (∀ yy xx, ((ds.foldl (injureDelta H W P strength y x p) a).injuries yy xx p =
        a.injuries yy xx p)) ∧
      (∀ yy xx, ((ds.foldl (injureDelta H W P strength y x p) a).injureMap yy xx =
        a.injureMap yy xx)) := by
  intro ds
  induction ds with
  | nil => exact fun a => ⟨fun _ _ => rfl, fun _ _ => rfl⟩
  | cons dd ds ih =>
    intro a
    rw [List.foldl_cons]
    obtain ⟨h1, h2⟩ := ih (injureDelta H W P strength y x p a dd)
    obtain ⟨h1', h2'⟩ := injureOppFold_inv strength dd
      (wrap H y dd.1) (wrap W x dd.2) p (List.range P) a
    exact ⟨fun yy xx => (h1 yy xx).trans (h1' yy xx),
           fun yy xx => (h2 yy xx).trans (h2' yy xx)⟩

/-- C6: in phase 3, a live piece (`pieces[y,x,p] ≥ 0`) standing on residual
map strength `strength[y,x] > 0` receives exactly the site strength as an
addition to `injuries[y,x,p]` (lifted from `-1` to 0 first), and contributes
its own piece strength — not the site strength — to `injure_map[y,x]`. -/
theorem c6_env_retaliation (H W P : Nat) (gm : GameMapT) (pieces : Grid3) (a : InjSt)
    (y x p : Nat) (hlive : 0 ≤ pieces y x p) (hsite : 0 < gm.strength y x) :
    (injureStep H W P gm pieces a (y, x, p)).injuries y x p =
      (if a.injuries y x p = -1 then 0 else a.injuries y x p) + gm.strength y x ∧
    (injureStep H W P gm pieces a (y, x, p)).injureMap y x =
      a.injureMap y x + pieces y x p := by
  have hnotneg : ¬(pieces y x p < 0) := not_lt.mpr hlive
  have hgt : gm.strength y x > 0 := hsite
  obtain ⟨hinj, hmap⟩ := injureDeltaFold_inv H W P (pieces y x p) y x p DIR_TO_DELTA a
  constructor
  · show (injureStep H W P gm pieces a (y, x, p)).injuries y x p = _
    simp only [injureStep, hnotneg, if_false, hgt, if_true]
    by_cases hl : (DIR_TO_DELTA.foldl (injureDelta H W P (pieces y x p) y x p) a).injuries y x p = -1
    · rw [hinj y x] at hl
      simp [hl, updG3, hinj y x]
    · rw [hinj y x] at hl
      simp [hl, updG3, hinj y x]
  · simp only [injureStep, hnotneg, if_false, hgt, if_true]
    by_cases hl : (DIR_TO_DELTA.foldl (injureDelta H W P (pieces y x p) y x p) a).injuries y x p = -1 <;>
      simp [hl, updG, hmap y x]

/-- Concrete scratch state for the C6 witness: a single zero-strength piece of
player 1 on a neutral site of strength 9. -/
def c6Gm : GameMapT where
  owner := fun _ _ => 0
  production := fun _ _ => 0
  strength := fun _ _ => 9

/-- Witness for C6 at the concrete state. -/
theorem c6_env_retaliation_witness :
    (injureStep 1 1 1 c6Gm (fun _ _ _ => 4)
        { injuries := fun _ _ _ => -1, injureMap := fun _ _ => 0,
          overkillDamage := fun _ _ _ => 0, overkillTaken := fun _ _ _ => 0 }
        (0, 0, 0)).injuries 0 0 0 =
      (if (fun (_ _ _ : Nat) => (-1 : Int)) 0 0 0 = -1 then 0
        else (fun (_ _ _ : Nat) => (-1 : Int)) 0 0 0) + c6Gm.strength 0 0 ∧
    (injureStep 1 1 1 c6Gm (fun _ _ _ => 4)
        { injuries := fun _ _ _ => -1, injureMap := fun _ _ => 0,
          overkillDamage := fun _ _ _ => 0, overkillTaken := fun _ _ _ => 0 }
        (0, 0, 0)).injureMap 0 0 =
      (fun (_ _ : Nat) => (0 : Int)) 0 0 + (fun (_ _ _ : Nat) => (4 : Int)) 0 0 0 :=
  c6_env_retaliation 1 1 1 c6Gm (fun _ _ _ => 4)
    { injuries := fun _ _ _ => -1, injureMap := fun _ _ => 0,
      overkillDamage := fun _ _ _ => 0, overkillTaken := fun _ _ _ => 0 }
    0 0 0 (by decide) (by decide)

/-! ## Claim C7 — ranking -/

instance (frames : OwnerFrames) (f : Nat) : IsTotal Nat (keyLe frames f) :=
  ⟨by intro a b; unfold keyLe; omega⟩

instance (frames : OwnerFrames) (f : Nat) : IsTrans Nat (keyLe frames f) :=
  ⟨by intro a b c; unfold keyLe; omega⟩

/-- Cohort membership: exactly the players alive at `f` and dead at `f+1`. -/
theorem cohort_mem (frames : OwnerFrames) (f i : Nat) :
    i ∈ cohort frames f ↔
      (i < numPlayers frames ∧ aliveAt frames f i = true ∧
        aliveAt frames (f + 1) i = false) := by
  unfold cohort diedAt
  rw [List.mem_insertionSort, List.mem_filter, List.mem_range]
  simp [Bool.and_eq_true, Bool.not_eq_true', and_assoc]

/-- Survivor membership: exactly the players alive at the last frame. -/
theorem survivors_mem (frames : OwnerFrames) (i : Nat) :
    i ∈ survivorsAtEnd frames ↔
      (i < numPlayers frames ∧ aliveAt frames (frames.length - 1) i = true) := by
  unfold survivorsAtEnd
  rw [List.mem_filter, List.mem_range]

/-- Death is absorbing across the frame range (under the no-revival
hypothesis). -/
theorem dead_stays (frames : OwnerFrames)
    (hpersist : ∀ f, f + 1 < frames.length → ∀ i, i < numPlayers frames →
      aliveAt frames f i = false → aliveAt frames (f + 1) i = false)
    (i : Nat) (hi : i < numPlayers frames) :
    ∀ f g, f ≤ g → g < frames.length → aliveAt frames f i = false →
      aliveAt frames g i = false := by
  intro f g hfg
  induction hfg with
  | refl => exact fun _ h => h
  | @step g' hfg ih =>
    intro hg hdead
    exact hpersist g' hg i hi (ih (Nat.lt_of_succ_lt hg) hdead)

/-- A player alive somewhere but dead at frame `g ≥ f0` died at some
transition frame. -/
theorem exists_transition (frames : OwnerFrames) (i : Nat) :
    ∀ (d f0 : Nat), aliveAt frames f0 i = true → f0 + d < frames.length →
      aliveAt frames (f0 + d) i = false →
      ∃ f, f + 1 < frames.length ∧ aliveAt frames f i = true ∧
        aliveAt frames (f + 1) i = false := by
  intro d
  induction d with
  | zero =>
    intro f0 ha _ hd
    rw [Nat.add_zero, ha] at hd
    exact absurd hd (by simp)
  | succ d ih =>
    intro f0 ha hlt hdead
    by_cases h1 : aliveAt frames (f0 + 1) i = true
    · refine ih (f0 + 1) h1 (by omega) ?_
      rw [show f0 + 1 + d = f0 + (d + 1) by omega]
      exact hdead
    · exact ⟨f0, by omega, ha, by simpa using h1⟩

/-- The elimination sequence never lists a player twice. -/
theorem elim_seq_nodup (frames : OwnerFrames) (hF : 1 ≤ frames.length)
    (hpersist : ∀ f, f + 1 < frames.length → ∀ i, i < numPlayers frames →
      aliveAt frames f i = false → aliveAt frames (f + 1) i = false) :
    (elim_seq frames).Nodup := by
  unfold elim_seq
  refine List.Nodup.append ?_ ?_ ?_
  · rw [List.nodup_flatMap]
    constructor
    · intro f _
      exact ((List.perm_insertionSort _ _).nodup_iff).mpr
        ((List.nodup_range _).filter _)
    · refine List.Pairwise.imp_of_mem ?_ (List.pairwise_lt_range _)
      intro a b ha hb hab
      intro j hja hjb
      rw [List.mem_range] at hb
      rw [cohort_mem] at hja hjb
      obtain ⟨hj, _, hdeadA⟩ := hja
      obtain ⟨_, haliveB, _⟩ := hjb
      have : aliveAt frames b j = false :=
        dead_stays frames hpersist j hj (a + 1) b (by omega) (by omega) hdeadA
      rw [haliveB] at this
      exact Bool.noConfusion this
  · exact ((List.perm_insertionSort _ _).nodup_iff).mpr
      ((List.nodup_range _).filter _)
  · intro j hj hj2
    rw [List.mem_flatMap] at hj
    obtain ⟨f, hf, hcoh⟩ := hj
    rw [List.mem_range] at hf
    rw [cohort_mem] at hcoh
    obtain ⟨hjP, _, hdead⟩ := hcoh
    rw [List.mem_insertionSort, survivors_mem] at hj2
    obtain ⟨_, halive⟩ := hj2
    have : aliveAt frames (frames.length - 1) j = false :=
      dead_stays frames hpersist j hjP (f + 1) (frames.length - 1)
        (by omega) (by omega) hdead
    rw [halive] at this
    exact Bool.noConfusion this

/-- A fold of rank writes never touching `idx` leaves `ranks[idx]` alone. -/
theorem rankWrite_fold_not_mem :
    ∀ {L : List (Nat × Nat)} {r : Nat → Int} {idx : Nat},
      idx ∉ L.map Prod.snd → (L.foldl rankWrite r) idx = r idx := by
  intro L
  induction L with
  | nil => exact fun _ => rfl
  | cons pi L ih =>
    intro r idx hidx
    rw [List.map_cons, List.mem_cons] at hidx
    push_neg at hidx
    rw [List.foldl_cons, ih (by exact hidx.2)]
    unfold rankWrite
    rw [if_neg hidx.1]

/-- With pairwise-distinct targets, each rank write survives to the end. -/
theorem rankWrite_fold_mem :
    ∀ {L : List (Nat × Nat)} {r : Nat → Int} {pos idx : Nat},
      (L.map Prod.snd).Nodup → (pos, idx) ∈ L →
      (L.foldl rankWrite r) idx = (pos : Int) := by
  intro L
  induction L with
  | nil => intro r pos idx _ h; exact absurd h (List.not_mem_nil _)
  | cons pi L ih =>
    intro r pos idx hnd hmem
    rw [List.map_cons, List.nodup_cons] at hnd
    rw [List.foldl_cons]
    rcases List.mem_cons.mp hmem with h | h
    · subst h
      rw [rankWrite_fold_not_mem (by exact hnd.1)]
      unfold rankWrite
      rw [if_pos rfl]
    · exact ih hnd.2 h

/-- C7: the ranking construction.  For frame sequences in which death is
permanent and every player (as numbered by the largest owner id) is alive in
some frame: (i) the cohort eliminated at `f` consists exactly of the players
alive at `f` and dead at `f+1`; (ii) every cohort and the final survivor block
are sorted ascending by `(territory[f], cumulative territory[f], player id)`;
(iii) every player occurs in the elimination sequence; (iv) `ranks[p]` is
player `p+1`'s 0-based position in the reversed (best-first) sequence; and
(v) `last_alive[p]` is the number of frames in which player `p+1` is alive,
minus one. -/
theorem c7_ranking (frames : OwnerFrames) (init : Nat → Int)
    (hF : 1 ≤ frames.length)
    (hpresent : ∀ i < numPlayers frames, ∃ f < frames.length,
      aliveAt frames f i = true)
    (hpersist : ∀ f, f + 1 < frames.length → ∀ i < numPlayers frames,
      aliveAt frames f i = false → aliveAt frames (f + 1) i = false) :
    (∀ f i, i ∈ cohort frames f ↔
      (i < numPlayers frames ∧ aliveAt frames f i = true ∧
        aliveAt frames (f + 1) i = false)) ∧
    (∀ f, (cohort frames f).Sorted (keyLe frames f)) ∧
    (List.insertionSort (keyLe frames (frames.length - 1))
      (survivorsAtEnd frames)).Sorted (keyLe frames (frames.length - 1)) ∧
    (∀ i < numPlayers frames, i ∈ elim_seq frames) ∧
    (∀ k (hk : k < (best_first frames).length),
      ranksFun init frames ((best_first frames).get ⟨k, hk⟩) = (k : Int)) ∧
    (∀ i, lastAliveVal frames i =
      ((List.range frames.length).countP (fun f => aliveAt frames f i) : Int) - 1) := by
  refine ⟨fun f i => cohort_mem frames f i, ?_, ?_, ?_, ?_, fun i => rfl⟩
  · intro f
    exact List.sorted_insertionSort _ _
  · exact List.sorted_insertionSort _ _
  · intro i hi
    by_cases hend : aliveAt frames (frames.length - 1) i = true
    · unfold elim_seq
      refine List.mem_append_right _ ?_
      rw [List.mem_insertionSort, survivors_mem]
      exact ⟨hi, hend⟩
    · obtain ⟨f0, hf0, halive0⟩ := hpresent i hi
      have hf0le : f0 ≤ frames.length - 1 := by omega
      obtain ⟨f, hf1, hfa, hfd⟩ := exists_transition frames i (frames.length - 1 - f0) f0
        halive0 (by omega) (by
          rw [show f0 + (frames.length - 1 - f0) = frames.length - 1 by omega]
          simpa using hend)
      unfold elim_seq
      refine List.mem_append_left _ ?_
      rw [List.mem_flatMap]
      exact ⟨f, List.mem_range.mpr (by omega), (cohort_mem frames f i).mpr ⟨hi, hfa, hfd⟩⟩
  · intro k hk
    unfold ranksFun
    refine rankWrite_fold_mem ?_ ?_
    · rw [List.enum_map_snd]
      unfold best_first
      rw [List.nodup_reverse]
      exact elim_seq_nodup frames hF hpersist
    · rw [List.mk_mem_enum_iff_getElem?]
      simp [List.getElem?_eq_getElem hk]

/-- Concrete three-frame match history for the C7 witness on a 1×3 board:
player 1 shrinks and dies after frame 1; player 2 survives throughout. -/
def c7Frames : OwnerFrames := [[[1, 1, 2]], [[1, 0, 2]], [[0, 0, 2]]]

/-- Witness for C7 at the concrete frame history. -/
theorem c7_ranking_witness :
    (∀ f i, i ∈ cohort c7Frames f ↔
      (i < numPlayers c7Frames ∧ aliveAt c7Frames f i = true ∧
        aliveAt c7Frames (f + 1) i = false)) ∧
    (∀ f, (cohort c7Frames f).Sorted (keyLe c7Frames f)) ∧
    (List.insertionSort (keyLe c7Frames (c7Frames.length - 1))
      (survivorsAtEnd c7Frames)).Sorted (keyLe c7Frames (c7Frames.length - 1)) ∧
    (∀ i < numPlayers c7Frames, i ∈ elim_seq c7Frames) ∧
    (∀ k (hk : k < (best_first c7Frames).length),
      ranksFun (fun _ => -7) c7Frames ((best_first c7Frames).get ⟨k, hk⟩) = (k : Int)) ∧
    (∀ i, lastAliveVal c7Frames i =
      ((List.range c7Frames.length).countP (fun f => aliveAt c7Frames f i) : Int) - 1) :=
  c7_ranking c7Frames (fun _ => -7) (by decide) (by decide)
    (by
      have h : ∀ f < 2, ∀ i < numPlayers c7Frames,
          aliveAt c7Frames f i = false → aliveAt c7Frames (f + 1) i = false := by decide
      intro f hf i hi hd
      refine h f ?_ i hi hd
      have hlen : c7Frames.length = 3 := rfl
      omega)

/-! ## Claim C10 — unvalidated directions reach the delta table -/

/-- Does a (3-aligned) reply suffix contain a later triple that survives the
bounds and ownership filters and targets cell `(cy, cx)`? -/
def writesCell (H W : Nat) (owner : Grid) (botId : Int) (cy cx : Nat) :
    List Int → Prop
  | x :: y :: _ :: rest =>
    (0 ≤ x ∧ x < (W : Int) ∧ 0 ≤ y ∧ y < (H : Int) ∧ owner y.toNat x.toNat = botId ∧
      y.toNat = cy ∧ x.toNat = cx) ∨
    writesCell H W owner botId cy cx rest
  | _ => False

/-- A reply suffix with no surviving triple aimed at `(cy, cx)` leaves that
cell of the move grid untouched. -/
theorem applyMoveTriples_preserves (H W : Nat) (owner : Grid) (botId : Int)
    (cy cx : Nat) :
    ∀ (data : List Int) (m : Grid),
      ¬ writesCell H W owner botId cy cx data →
      applyMoveTriples H W owner botId data m cy cx = m cy cx
  | [], _, _ => rfl
  | [_], _, _ => rfl
  | [_, _], _, _ => rfl
  | x :: y :: d :: rest, m, hnw => by
    have hrest : ¬ writesCell H W owner botId cy cx rest := fun h => hnw (Or.inr h)
    rw [show applyMoveTriples H W owner botId (x :: y :: d :: rest) m =
        applyMoveTriples H W owner botId rest
          (if 0 ≤ x ∧ x < (W : Int) ∧ 0 ≤ y ∧ y < (H : Int) ∧
              owner y.toNat x.toNat = botId
           then updG m y.toNat x.toNat d else m) from rfl]
    rw [applyMoveTriples_preserves H W owner botId cy cx rest _ hrest]
    split
    · rename_i hq
      refine updG_other _ _ _ _ ?_
      rintro ⟨h1, h2⟩
      exact hnw (Or.inl ⟨hq.1, hq.2.1, hq.2.2.1, hq.2.2.2.1, hq.2.2.2.2, h1.symm, h2.symm⟩)
    · rfl

/-- Map for the C10 reachability conjunct: bot 1 owns the single cell of a
1×1 board. -/
def c10Map : GameMapT where
  owner := fun _ _ => 1
  production := fun _ _ => 0
  strength := fun _ _ => 0

/-- Owner plane seen by the C10 move parser: every cell owned by bot 1. -/
def c10Owner : Grid := fun _ _ => 1

/-- C10 (counterexample): the reply `0 0 7 0 0 1` contains the in-bounds,
owned triple `(x=0, y=0, d=7)`, yet the parsed grid stores 1 at `(0, 0)` (the
later triple overwrote it) — the claim's universal "stores `d`" fails without
a no-later-overwrite proviso. -/
theorem c10_counterexample :
    ((0 : Int) ≤ 0 ∧ (0 : Int) < 2 ∧ c10Owner 0 0 = 1) ∧
    moveAt (parseMoves 2 2 c10Owner 1 [0, 0, 7, 0, 0, 1]) 0 0 = 1 ∧
    ((1 : Int) ≠ 7) :=
  ⟨by decide, by decide, by decide⟩

/-- C10 (amended): the parser never validates the direction value — any
in-bounds, owned triple `(x, y, d)` not overwritten by a later triple of the
reply stores `d` verbatim, even for `d ∉ {0,1,2,3,4}`; and a stored
out-of-range direction reaches `DIR_TO_DELTA[direction]` in
`apply_player_moves_dense`: feeding the parsed grid of the reply `0 0 7`
(direction 7) into the resolver raises the out-of-range table access
(`IndexError`). -/
theorem c10_amended :
    (∀ (H W : Nat) (owner : Grid) (botId x y d : Int) (rest : List Int) (m : Grid),
      (0 ≤ x ∧ x < (W : Int) ∧ 0 ≤ y ∧ y < (H : Int) ∧
        owner y.toNat x.toNat = botId) →
      ¬ writesCell H W owner botId y.toNat x.toNat rest →
      applyMoveTriples H W owner botId (x :: y :: d :: rest) m y.toNat x.toNat = d) ∧
    moveAt (parseMoves 1 1 c10Owner 1 [0, 0, 7]) 0 0 = 7 ∧
    process_next_frame 1 1 1 c10Map
      (fun y x _ => moveAt (parseMoves 1 1 c10Owner 1 [0, 0, 7]) y x) =
      .error .indexError := by
  refine ⟨?_, by decide, rfl⟩
  intro H W owner botId x y d rest m hq hnw
  rw [show applyMoveTriples H W owner botId (x :: y :: d :: rest) m =
      applyMoveTriples H W owner botId rest
        (if 0 ≤ x ∧ x < (W : Int) ∧ 0 ≤ y ∧ y < (H : Int) ∧
            owner y.toNat x.toNat = botId
         then updG m y.toNat x.toNat d else m) from rfl]
  rw [applyMoveTriples_preserves H W owner botId y.toNat x.toNat rest _ hnw]
  rw [if_pos hq, updG_same]

/-- Witness for C10 (amended) at a concrete reply. -/
theorem c10_amended_witness :
    applyMoveTriples 2 2 c10Owner 1 [0, 0, 7] (fun _ _ => 0) 0 0 = 7 :=
  c10_amended.1 2 2 c10Owner 1 0 0 7 [] (fun _ _ => 0) (by decide) (fun h => h)

/-! ## Claim C9 — error behaviour of `_generate_map` on invalid inputs -/

/-- A concrete instance of the PRNG model: every `rng.random()` draw is 0,
every bounded integer draw is 0, and `x ** 1.5` is left as the identity (the
failing runs below never exercise it). -/
def opsZero : RngOps where
  unif := fun _ => 0
  intDraw := fun _ _ => 0
  pow15 := fun q => q

/-- C9 (behaviour at the failing inputs): with `P = 0` the generator dies with
`ZeroDivisionError` (`dh = isqrt(0) = 0`, then `0 % 0`), and with
`(W, H, P) = (3, 3, 5)` the `mod P` trim drives the chunk to `0 × 0`, so
`_Region.__init__` evaluates `len(self.children[0])` on an empty child list
and dies with `IndexError`.  Neither failure is the `GenerationError` the
specification requires — that class does not exist in the source at all. -/
theorem c9_invalid_inputs :
    _generate_map opsZero 4 4 0 = .error .zeroDivisionError ∧
    _generate_map opsZero 3 3 5 = .error .indexError ∧
    PyErr.zeroDivisionError ≠ PyErr.generationError ∧
    PyErr.indexError ≠ PyErr.generationError :=
  ⟨rfl, rfl, by decide, by decide⟩

/-! ## Claim C8 — determinism of map generation -/

/-- C8: `_generate_map` consumes randomness only through the single PRNG
handed to it, modelled by `RngOps`; the draw streams are indexed by one
counter in program order.  Two generator runs over the same seed's stream are
equal, and more generally the result depends on nothing but the pointwise
behaviour of the stream: agreeing streams produce identical
`(height, width, owner, production, strength)` results. -/
theorem c8_determinism (width height numPlayers seed : Nat) (prng : Nat → RngOps) :
    _generate_map (prng seed) width height numPlayers =
      _generate_map (prng seed) width height numPlayers ∧
    (∀ ops1 ops2 : RngOps,
      (∀ n, ops1.unif n = ops2.unif n) →
      (∀ n b, ops1.intDraw n b = ops2.intDraw n b) →
      (∀ q, ops1.pow15 q = ops2.pow15 q) →
      _generate_map ops1 width height numPlayers =
        _generate_map ops2 width height numPlayers) := by
  refine ⟨rfl, ?_⟩
  intro ops1 ops2 h1 h2 h3
  have h : ops1 = ops2 := by
    cases ops1; cases ops2
    simp only [RngOps.mk.injEq]
    exact ⟨funext h1, funext fun n => funext (h2 n), funext h3⟩
  rw [h]

/-- Witness for C8 at a concrete input. -/
theorem c8_determinism_witness :
    _generate_map opsZero 4 4 2 = _generate_map opsZero 4 4 2 :=
  (c8_determinism 4 4 2 0 (fun _ => opsZero)).2 opsZero opsZero
    (fun _ => rfl) (fun _ _ => rfl) (fun _ => rfl)

end Halite
